import Mathlib

/-!
Shallow embedding of the container-loading core: the placement engine
(`Shipment`), the carrier registry (`ShipmentsManager`), the timestamp
window (`TimestampsManager`), the cargo and carrier sources
(`ContainersManager`, `ShipsManager`) and the scheduling loop
(`Operator.optimize`).

Python objects are modelled as structures carrying an `oid : Nat` field
standing for the object's identity (its address).  Python's default
`==`/`in`/`list.remove` compare by identity; two live objects always have
distinct addresses, so identity comparison coincides with full value
equality as long as distinct objects are given distinct `oid`s, which is
how the embedding uses it.  Fallible Python code (IndexError on an
integer index, ValueError from `max`/`index`/`remove` on a missing
element) is modelled with `Option`: a `none` result component means the
call raised, and the accompanying state is the (possibly partially
mutated) state at the moment of the raise.
-/

/-- A cargo unit (`containers_manager.Container`).  `oid` models object
identity; the remaining fields are the Python attributes. -/
structure Container where
  oid : Nat
  cid : Int
  length : Int
  width : Int
  height : Int
  timestamp : Int
deriving DecidableEq, Repr

/-- A carrier (`ships_manager.Ship`).  `oid` models object identity. -/
structure Ship where
  oid : Nat
  sid : Int
  length : Int
  width : Int
  height : Int
  timestamp : Int
deriving DecidableEq, Repr

/-- A corner position (`shipments_manager.CornerPosition`). -/
structure CornerPosition where
  length : Int
  width : Int
  height_level : Int
deriving DecidableEq, Repr

/-- A placed container (`shipments_manager.PlacedContainer`): a container
together with its lower corner.  `corner2` is derived, exactly as the
Python constructor computes it. -/
structure PlacedContainer where
  container : Container
  corner1 : CornerPosition
deriving DecidableEq, Repr

/-- The derived second corner, `corner1 + (container.length, container.width)`
at the same level. -/
def PlacedContainer.corner2 (pc : PlacedContainer) : CornerPosition :=
  { length := pc.corner1.length + pc.container.length
    width := pc.corner1.width + pc.container.width
    height_level := pc.corner1.height_level }

/-- `PlacedContainer.get_shifted_copy`: a copy whose corner is moved by the
given offsets. -/
def PlacedContainer.get_shifted_copy (pc : PlacedContainer)
    (diff_length diff_width diff_height_level : Int) : PlacedContainer :=
  { container := pc.container
    corner1 :=
      { length := pc.corner1.length + diff_length
        width := pc.corner1.width + diff_width
        height_level := pc.corner1.height_level + diff_height_level } }

/-- Python `list.remove(x)`: drop the first element equal to `x` (default
equality is identity; full value equality in the embedding, see the header
note).  The caller is responsible for the ValueError raised when `x` is
absent; uses below either guard membership first or model the raise
explicitly. -/
def pyRemoveFirst {α : Type} [DecidableEq α] (x : α) : List α → List α
  | [] => []
  | a :: t => if a = x then t else a :: pyRemoveFirst x t

/-! ## Timestamp window (`timestamps_manager.TimestampsManager`)

The `SortedList` backing store is modelled as a strictly sorted
`List Int`; `add` inserts in order. -/

/-- The timestamp window state. -/
structure TimestampsManager where
  min : Int
  max : Int
  timestamps : List Int
deriving DecidableEq, Repr

namespace TimestampsManager

/-- The initial state of the window: both cursors `-1`, empty set. -/
def init : TimestampsManager := { min := -1, max := -1, timestamps := [] }

/-- Ordered insertion into the sorted backing list (`SortedList.add`). -/
def insertSorted (x : Int) : List Int → List Int
  | [] => [x]
  | a :: t => if x ≤ a then x :: a :: t else a :: insertSorted x t

/-- `get_min`. -/
def get_min (tm : TimestampsManager) : Int := tm.min

/-- `get_max`. -/
def get_max (tm : TimestampsManager) : Int := tm.max

/-- `_set_min_directly`: moves the low cursor only when the value does not
exceed the high cursor. -/
def set_min_directly (tm : TimestampsManager) (x : Int) : TimestampsManager :=
  if x ≤ tm.max then { tm with min := x } else tm

/-- `_set_max_directly`: moves the high cursor only when the value is not
below the low cursor. -/
def set_max_directly (tm : TimestampsManager) (x : Int) : TimestampsManager :=
  if tm.min ≤ x then { tm with max := x } else tm

/-- `set_min`: takes effect only when `x` is a member of the set. -/
def set_min (tm : TimestampsManager) (x : Int) : TimestampsManager :=
  if x ∈ tm.timestamps then tm.set_min_directly x else tm

/-- `set_max`: takes effect only when `x` is a member of the set. -/
def set_max (tm : TimestampsManager) (x : Int) : TimestampsManager :=
  if x ∈ tm.timestamps then tm.set_max_directly x else tm

/-- `increase_min`.  The result component is `none` when the Python code
raises: `timestamps[-1]` on an empty list (IndexError) or
`timestamps.index(min)` with `min` not a member (ValueError); otherwise
`some r` where `r` is the returned int.  The second component is the state
after the call. -/
def increase_min (tm : TimestampsManager) : Option Int × TimestampsManager :=
  match tm.timestamps.getLast? with
  | none => (none, tm)
  | some last =>
    if tm.min < last then
      if tm.min ∈ tm.timestamps then
        match tm.timestamps.get? (tm.timestamps.indexOf tm.min + 1) with
        | none => (none, tm)
        | some next =>
          let tm' := tm.set_min_directly next
          (some tm'.get_min, tm')
      else (none, tm)
    else (some (-1), tm)

/-- `increase_max`, the mirror image of `increase_min` for the high cursor. -/
def increase_max (tm : TimestampsManager) : Option Int × TimestampsManager :=
  match tm.timestamps.getLast? with
  | none => (none, tm)
  | some last =>
    if tm.max < last then
      if tm.max ∈ tm.timestamps then
        match tm.timestamps.get? (tm.timestamps.indexOf tm.max + 1) with
        | none => (none, tm)
        | some next =>
          let tm' := tm.set_max_directly next
          (some tm'.get_max, tm')
      else (none, tm)
    else (some (-1), tm)

/-- `add`: ignores negative values and duplicates; the first observation
sets both cursors, later ones push the extremes outward. -/
def add (tm : TimestampsManager) (x : Int) : TimestampsManager :=
  if 0 ≤ x then
    if tm.timestamps = [] then
      { min := x, max := x, timestamps := insertSorted x tm.timestamps }
    else if x ∉ tm.timestamps then
      { min := Min.min tm.min x
        max := Max.max tm.max x
        timestamps := insertSorted x tm.timestamps }
    else tm
  else tm

end TimestampsManager

/-! ## Cargo source (`containers_manager.ContainersManager`)

`add` takes a raw string in Python and first runs `Container.from_string`;
the embedding takes the parse result directly (`Option Container`), which
loses no generality because `from_string` can produce a container with any
integer field values, or `none`.  The `type(min_timestamp) is not int`
guard is discharged by the type of the argument. -/

/-- The cargo-source state.  The `min_*`/`max_*` validation bounds keep
their Python default values. -/
structure ContainersManager where
  waiting_containers : List Container
  sent_containers : List Container
  const_h : Option Int
  min_length : Int := 1
  max_length : Int := 40
  min_width : Int := 1
  max_width : Int := 40
  min_height : Int := 1
  max_height : Int := 40
deriving DecidableEq, Repr

namespace ContainersManager

/-- The freshly constructed manager. -/
def init : ContainersManager :=
  { waiting_containers := [], sent_containers := [], const_h := none }

/-- `add`, applied to the result of `Container.from_string`.  Returns the
container on success and `none` on any rejection, paired with the updated
state. -/
def add (cm : ContainersManager) (parsed : Option Container)
    (min_timestamp : Int) : Option Container × ContainersManager :=
  match parsed with
  | none => (none, cm)
  | some c =>
    let check_ok :=
      min_timestamp ≤ c.timestamp ∧
      cm.min_length ≤ c.length ∧ c.length ≤ cm.max_length ∧
      cm.min_width ≤ c.width ∧ c.width ≤ cm.max_width ∧
      cm.min_height ≤ c.height ∧ c.height ≤ cm.max_height ∧
      c.cid ∉ (cm.waiting_containers ++ cm.sent_containers).map (·.cid)
    if check_ok then
      match cm.const_h with
      | none =>
        (some c, { cm with const_h := some c.height
                           waiting_containers := cm.waiting_containers ++ [c] })
      | some h =>
        if c.height = h then
          (some c, { cm with waiting_containers := cm.waiting_containers ++ [c] })
        else (none, cm)
    else (none, cm)

/-- `send`: moves every listed container that is currently waiting from the
waiting list to the sent list. -/
def send (cm : ContainersManager) (containers : List Container) : ContainersManager :=
  containers.foldl
    (fun acc c =>
      if c ∈ acc.waiting_containers then
        { acc with waiting_containers := pyRemoveFirst c acc.waiting_containers
                   sent_containers := acc.sent_containers ++ [c] }
      else acc)
    cm

/-- `get_containers`: the prefix of the waiting list whose timestamps do
not exceed the bound (the scan stops at the first element that does). -/
def get_containers (cm : ContainersManager) (max_timestamp : Int) : List Container :=
  cm.waiting_containers.takeWhile (fun c => c.timestamp ≤ max_timestamp)

end ContainersManager

/-! ## Carrier source (`ships_manager.ShipsManager`), the slice the
scheduling loop consumes. -/

/-- The carrier-source state (validation bounds omitted: the scheduling
loop only reads `ships`, `max_available` and `get_available`). -/
structure ShipsManager where
  max_available : Nat := 3
  ships : List Ship
deriving DecidableEq, Repr

namespace ShipsManager

/-- `get_available`: scans the ship list most-recent-first, collecting
ships with timestamp at most the bound, stopping once `max_available`
have been collected. -/
def get_available (sm : ShipsManager) (max_timestamp : Int) : List Ship :=
  (sm.ships.reverse.filter (fun s => s.timestamp ≤ max_timestamp)).take sm.max_available

end ShipsManager

/-! ## Placement engine (`shipments_manager.Shipment`)

The occupancy map (`np.zeros(shape=(levels_nr, ship.length, ship.width),
dtype=np.int8)`) is modelled as a `Nat → Nat → Nat → Bool` function over
cell indices, together with the stored dimensions.  Numpy slicing
`m[lv, a:b, c:d]` clamps slice bounds exactly like Python list slices
(`pySliceIdx`), while the leading integer index raises IndexError when out
of range after Python's negative-index normalisation (`pyListIdx`); the
per-level Python list is indexed by the very same rule and has the same
length, so a single resolved index serves both. -/

/-- Python/numpy slice-bound normalisation for a dimension of size `n`:
negative values count from the end, and everything is clamped to
`[0, n]`. -/
def pySliceIdx (n : Nat) (i : Int) : Nat :=
  if i < 0 then ((n : Int) + i).toNat else Min.min i.toNat n

/-- Python integer-index normalisation for a dimension of size `n`:
`some` of the effective index, or `none` for the IndexError cases. -/
def pyListIdx (n : Nat) (i : Int) : Option Nat :=
  if 0 ≤ i then (if i < (n : Int) then some i.toNat else none)
  else if 0 ≤ (n : Int) + i then some ((n : Int) + i).toNat else none

/-- The occupancy-map representation. -/
def OccMap : Type := Nat → Nat → Nat → Bool

/-- Write `b` into every cell of the rectangle
`[l1, l2) × [w1, w2)` at level `lv` (the effect of the numpy slice
assignments in `_add_to_map` / `_remove_from_map`). -/
def markCells (m : OccMap) (lv l1 l2 w1 w2 : Nat) (b : Bool) : OccMap :=
  fun l x y => if l = lv ∧ l1 ≤ x ∧ x < l2 ∧ w1 ≤ y ∧ y < w2 then b else m l x y

/-- The list `[lo, lo+1, ..., hi-1]`. -/
def natRange (lo hi : Nat) : List Nat := (List.range hi).drop lo

/-- The number of occupied cells in the rectangle `[l1, l2) × [w1, w2)` at
level `lv` (the `np.sum` of a sliced occupancy map). -/
def countOcc (m : OccMap) (lv l1 l2 w1 w2 : Nat) : Nat :=
  ((natRange l1 l2).map fun x => ((natRange w1 w2).filter fun y => m lv x y).length).sum

/-- The state of a single shipment.  `lenDim`/`widDim` are the second and
third dimensions the constructor gave the occupancy map; the first
dimension (`levels_nr`) always equals the length of
`placed_containers_levels`, so it is derived rather than stored.  `oid`
models the shipment object's identity (its address), used by the
registry's identity-based membership, first-member comparison and
`list.remove`; `init` does not itself distinguish identities (it leaves
`oid` at 0), and no theorem below relies on the identities of
`init`-created shipments — theorems about registry removal quantify over
arbitrary states. -/
structure Shipment where
  ship : Ship
  containers_height : Int
  placed_containers_levels : List (List PlacedContainer)
  all_containers : List Container
  occupancy_map : OccMap
  lenDim : Nat
  widDim : Nat
  oid : Nat

namespace Shipment

/-- `levels_nr = ship.height // containers_height`, kept in sync with the
per-level list by construction. -/
def levels_nr (s : Shipment) : Nat := s.placed_containers_levels.length

/-- A throwaway shipment value, used only to unwrap `init` results on
concrete inputs where `init` is proved to succeed. -/
def fallback : Shipment :=
  { ship := ⟨0, 0, 0, 0, 0, 0⟩
    containers_height := 1
    placed_containers_levels := []
    all_containers := []
    occupancy_map := fun _ _ _ => false
    lenDim := 0
    widDim := 0
    oid := 0 }

/-- The constructor.  `none` models the constructor raising:
ZeroDivisionError when `containers_height = 0`, or `np.zeros` rejecting a
negative shape component. -/
def init (ship : Ship) (containers_height : Int) : Option Shipment :=
  if containers_height ≠ 0 ∧ 0 ≤ ship.height.fdiv containers_height ∧
      0 ≤ ship.length ∧ 0 ≤ ship.width then
    some { ship := ship
           containers_height := containers_height
           placed_containers_levels :=
             List.replicate (ship.height.fdiv containers_height).toNat []
           all_containers := []
           occupancy_map := fun _ _ _ => false
           lenDim := ship.length.toNat
           widDim := ship.width.toNat
           oid := 0 }
  else none

/-- The per-level list at resolved index `lv`. -/
def level (s : Shipment) (lv : Nat) : List PlacedContainer :=
  s.placed_containers_levels.getD lv []

/-- The resolved occupancy-map level index of a placed container, `none`
when the Python integer index would raise. -/
def mapLevelIdx (s : Shipment) (pc : PlacedContainer) : Option Nat :=
  pyListIdx s.levels_nr pc.corner1.height_level

/-- Resolved lower length slice bound of a container footprint. -/
def sliceL1 (s : Shipment) (pc : PlacedContainer) : Nat := pySliceIdx s.lenDim pc.corner1.length

/-- Resolved upper length slice bound of a container footprint. -/
def sliceL2 (s : Shipment) (pc : PlacedContainer) : Nat := pySliceIdx s.lenDim pc.corner2.length

/-- Resolved lower width slice bound of a container footprint. -/
def sliceW1 (s : Shipment) (pc : PlacedContainer) : Nat := pySliceIdx s.widDim pc.corner1.width

/-- Resolved upper width slice bound of a container footprint. -/
def sliceW2 (s : Shipment) (pc : PlacedContainer) : Nat := pySliceIdx s.widDim pc.corner2.width

/-- `get_used_levels_nr`: the number of non-empty levels counted from
level 0, stopping at the first empty one. -/
def get_used_levels_nr (s : Shipment) : Nat :=
  (s.placed_containers_levels.takeWhile fun l => !l.isEmpty).length

/-- `get_all_containers`. -/
def get_all_containers (s : Shipment) : List Container := s.all_containers

/-- `get_timestamps_set`: the set of distinct timestamps of the placed
containers, as a deduplicated list. -/
def get_timestamps_set (s : Shipment) : List Int :=
  (s.all_containers.map (·.timestamp)).dedup

/-- `_check_redundancy`: the candidate's container object is not already
placed (Python identity membership in `all_containers`). -/
def check_redundancy (s : Shipment) (pc : PlacedContainer) : Bool :=
  decide (pc.container ∉ s.all_containers)

/-- `_check_if_inside_ship`. -/
def check_if_inside_ship (s : Shipment) (pc : PlacedContainer) : Bool :=
  decide (0 ≤ pc.corner1.height_level ∧ pc.corner1.height_level < (s.levels_nr : Int) ∧
          0 ≤ pc.corner1.length ∧ pc.corner1.length ≤ s.ship.length ∧
          0 ≤ pc.corner1.width ∧ pc.corner1.width ≤ s.ship.width ∧
          0 ≤ pc.corner2.length ∧ pc.corner2.length ≤ s.ship.length ∧
          0 ≤ pc.corner2.width ∧ pc.corner2.width ≤ s.ship.width)

/-- `_check_if_unoccupied` against an explicit map (`checked_map`);
`none` when the level index raises. -/
def check_if_unoccupied (s : Shipment) (pc : PlacedContainer) (m : OccMap) : Option Bool :=
  (s.mapLevelIdx pc).map fun lv =>
    decide (countOcc m lv (s.sliceL1 pc) (s.sliceL2 pc) (s.sliceW1 pc) (s.sliceW2 pc) = 0)

/-- `_check_if_stable` against an explicit map.  The Python comparison
`area_below >= (length * width) / 2` uses exact float division of two
ints; since `area_below` is an integer it is equivalent to the integer
comparison `2 * area_below >= length * width` used here. -/
def check_if_stable (s : Shipment) (pc : PlacedContainer) (m : OccMap) : Option Bool :=
  if pc.corner1.height_level = 0 then some true
  else
    (pyListIdx s.levels_nr (pc.corner1.height_level - 1)).map fun lv =>
      decide (pc.container.length * pc.container.width ≤
        2 * (countOcc m lv (s.sliceL1 pc) (s.sliceL2 pc) (s.sliceW1 pc) (s.sliceW2 pc) : Int))

/-- `_add_to_map` on an explicit map; `none` when the level index raises
(in which case numpy writes nothing). -/
def add_to_map (s : Shipment) (pc : PlacedContainer) (m : OccMap) : Option OccMap :=
  (s.mapLevelIdx pc).map fun lv =>
    markCells m lv (s.sliceL1 pc) (s.sliceL2 pc) (s.sliceW1 pc) (s.sliceW2 pc) true

/-- `_remove_from_map` on an explicit map. -/
def remove_from_map (s : Shipment) (pc : PlacedContainer) (m : OccMap) : Option OccMap :=
  (s.mapLevelIdx pc).map fun lv =>
    markCells m lv (s.sliceL1 pc) (s.sliceL2 pc) (s.sliceW1 pc) (s.sliceW2 pc) false

/-- `_add`: mark the occupancy map, append to the per-level list, append
the container to the flat list.  `none` models the IndexError of the map
write, which in Python happens before any mutation. -/
def priv_add (s : Shipment) (pc : PlacedContainer) : Option Shipment :=
  match s.mapLevelIdx pc with
  | none => none
  | some lv =>
    some { s with
      occupancy_map :=
        markCells s.occupancy_map lv (s.sliceL1 pc) (s.sliceL2 pc) (s.sliceW1 pc) (s.sliceW2 pc) true
      placed_containers_levels :=
        s.placed_containers_levels.set lv (s.level lv ++ [pc])
      all_containers := s.all_containers ++ [pc.container] }

/-- `_remove`: clear the map, then `list.remove` on the per-level list,
then `list.remove` on the flat list.  A `none` result component models a
raise part-way through; the accompanying state is the partially mutated
one, exactly as in Python (the map write precedes the list removals, and
each `list.remove` raises ValueError when its argument is absent). -/
def priv_remove (s : Shipment) (pc : PlacedContainer) : Option Unit × Shipment :=
  match s.mapLevelIdx pc with
  | none => (none, s)
  | some lv =>
    let s1 := { s with
      occupancy_map :=
        markCells s.occupancy_map lv (s.sliceL1 pc) (s.sliceL2 pc) (s.sliceW1 pc) (s.sliceW2 pc) false }
    if pc ∈ s1.level lv then
      let s2 := { s1 with
        placed_containers_levels :=
          s1.placed_containers_levels.set lv (pyRemoveFirst pc (s1.level lv)) }
      if pc.container ∈ s2.all_containers then
        (some (), { s2 with all_containers := pyRemoveFirst pc.container s2.all_containers })
      else (none, s2)
    else (none, s1)

/-- `check_and_add`: bounds, then overlap, then stability, then
redundancy, each short-circuiting like the Python `and`; mutate only when
every check passes. -/
def check_and_add (s : Shipment) (pc : PlacedContainer) : Option Bool × Shipment :=
  let if_can : Option Bool :=
    if s.check_if_inside_ship pc then
      match s.check_if_unoccupied pc s.occupancy_map with
      | none => none
      | some false => some false
      | some true =>
        match s.check_if_stable pc s.occupancy_map with
        | none => none
        | some false => some false
        | some true => some (s.check_redundancy pc)
    else some false
  match if_can with
  | none => (none, s)
  | some false => (some false, s)
  | some true =>
    match s.priv_add pc with
    | none => (none, s)
    | some s' => (some true, s')

/-- Filter of `_get_supported_containers`: the members of `above` that are
not stable on the hypothetical map, scanned left to right with the first
raise winning. -/
def filterUnstable (s : Shipment) (m : OccMap) : List PlacedContainer → Option (List PlacedContainer)
  | [] => some []
  | x :: t =>
    match s.check_if_stable x m with
    | none => none
    | some b =>
      match filterUnstable s m t with
      | none => none
      | some l => some (if b then l else x :: l)

/-- `_get_supported_containers`: the items one level above that would be
unstable after hypothetically clearing the given footprint on a scratch
copy of the map. -/
def get_supported_containers (s : Shipment) (pc : PlacedContainer) : Option (List PlacedContainer) :=
  if (s.levels_nr : Int) - 1 ≤ pc.corner1.height_level then some []
  else
    match pyListIdx s.levels_nr (pc.corner1.height_level + 1) with
    | none => none
    | some lvAbove =>
      let above := s.level lvAbove
      if above.isEmpty then some []
      else
        match s.remove_from_map pc s.occupancy_map with
        | none => none
        | some map_to_be => s.filterUnstable map_to_be above

/-- `check_and_remove`: refuse when the item is not present at its level
(Python identity membership) or when some item above depends on it;
otherwise remove it. -/
def check_and_remove (s : Shipment) (pc : PlacedContainer) : Option Bool × Shipment :=
  match pyListIdx s.levels_nr pc.corner1.height_level with
  | none => (none, s)
  | some lv =>
    if pc ∈ s.level lv then
      match s.get_supported_containers pc with
      | none => (none, s)
      | some supported =>
        if supported.isEmpty then
          match s.priv_remove pc with
          | (some _, s') => (some true, s')
          | (none, s') => (none, s')
        else (some false, s)
    else (some false, s)

mutual

/-- `remove_recursively`, fuel-indexed: remove every dependent item above
(recursively), then the item itself.  Fuel exhaustion is reported like a
raise; the top-level wrapper supplies enough fuel for every state whose
items sit at their own level, since each recursive call moves one level
up. -/
def remove_recursively_fuel : Nat → Shipment → PlacedContainer → Option Bool × Shipment
  | 0, s, _ => (none, s)
  | fuel + 1, s, pc =>
    match s.get_supported_containers pc with
    | none => (none, s)
    | some supported =>
      match removeRecList fuel s supported with
      | (none, s') => (none, s')
      | (some _, s') =>
        match s'.priv_remove pc with
        | (some _, s2) => (some true, s2)
        | (none, s2) => (none, s2)

/-- The `for x in supported_containers` loop of `remove_recursively`,
threading the state left to right. -/
def removeRecList : Nat → Shipment → List PlacedContainer → Option Unit × Shipment
  | fuel, s, [] =>
    match fuel with
    | _ => (some (), s)
  | fuel, s, x :: t =>
    match remove_recursively_fuel fuel s x with
    | (none, s') => (none, s')
    | (some _, s') => removeRecList fuel s' t

end

/-- `remove_recursively` at the standard fuel. -/
def remove_recursively (s : Shipment) (pc : PlacedContainer) : Option Bool × Shipment :=
  remove_recursively_fuel (s.levels_nr + 1) s pc

/-- The inner `for placed_container in level` loop of the check phase of
`check_and_join`: shifted copies are accumulated, but the stability and
redundancy tests are applied to the original `placed_container` (not the
shifted copy), exactly as in the source. -/
def joinScanLevel (s : Shipment) (used : Nat) : List PlacedContainer → Option (Bool × List PlacedContainer)
  | [] => some (true, [])
  | pc :: t =>
    let new_pc := pc.get_shifted_copy 0 0 (used : Int)
    match s.check_if_stable pc s.occupancy_map with
    | none => none
    | some false => some (false, [])
    | some true =>
      if s.check_redundancy pc then
        match joinScanLevel s used t with
        | none => none
        | some (b, l) => some (b, new_pc :: l)
      else some (false, [])

/-- The outer `for level in shipment.placed_containers_levels` loop of the
check phase of `check_and_join`. -/
def joinScan (s : Shipment) (used : Nat) : List (List PlacedContainer) → Option (Bool × List PlacedContainer)
  | [] => some (true, [])
  | levelList :: rest =>
    match s.joinScanLevel used levelList with
    | none => none
    | some (false, _) => some (false, [])
    | some (true, l) =>
      match s.joinScan used rest with
      | none => none
      | some (b, l2) => some (b, l ++ l2)

/-- The commit phase of `check_and_join`: `_add` every collected shifted
copy in order; a raise leaves the previously committed items in place. -/
def commitList : Shipment → List PlacedContainer → Option Unit × Shipment
  | s, [] => (some (), s)
  | s, pc :: t =>
    match s.priv_add pc with
    | none => (none, s)
    | some s' => commitList s' t

/-- The footprint of a placed container, as the set of resolved grid
cells: `fpContains s pc x y` says cell `(x, y)` lies in the rectangle the
map writes for `pc`. -/
def fpContains (s : Shipment) (pc : PlacedContainer) (x y : Nat) : Prop :=
  s.sliceL1 pc ≤ x ∧ x < s.sliceL2 pc ∧ s.sliceW1 pc ≤ y ∧ y < s.sliceW2 pc

instance (s : Shipment) (pc : PlacedContainer) (x y : Nat) :
    Decidable (s.fpContains pc x y) := by
  unfold fpContains; infer_instance

/-- One direction of the spec's occupancy invariant: every occupied cell
lies inside the footprint of some item currently in the per-level list of
that cell's level. -/
def Covered (s : Shipment) : Prop :=
  ∀ lv x y, s.occupancy_map lv x y = true →
    ∃ pc, pc ∈ s.level lv ∧ s.fpContains pc x y

/-- `check_and_join`: same ship (identity), used-levels sum within the
level count, then the check phase over all of `other`'s items against
`self`'s current map, then the all-or-nothing commit. -/
def check_and_join (s other : Shipment) : Option Bool × Shipment :=
  if s.ship = other.ship then
    let used := s.get_used_levels_nr
    if used + other.get_used_levels_nr ≤ s.levels_nr then
      match s.joinScan used other.placed_containers_levels with
      | none => (none, s)
      | some (false, _) => (some false, s)
      | some (true, to_add) =>
        match commitList s to_add with
        | (some _, s') => (some true, s')
        | (none, s') => (none, s')
    else (some false, s)
  else (some false, s)

end Shipment

/-- One call of a public mutating `Shipment` operation, with its
argument. -/
inductive SOp where
  | addOp (pc : PlacedContainer)
  | removeOp (pc : PlacedContainer)
  | removeRecOp (pc : PlacedContainer)
  | joinOp (other : Shipment)

/-- The state after one operation call (the state component of the result,
whether the call returned normally or raised). -/
def Shipment.applyOp (s : Shipment) : SOp → Shipment
  | .addOp pc => (s.check_and_add pc).2
  | .removeOp pc => (s.check_and_remove pc).2
  | .removeRecOp pc => (s.remove_recursively pc).2
  | .joinOp other => (s.check_and_join other).2

/-- The state after a sequence of operation calls. -/
def Shipment.applyOps (s : Shipment) (ops : List SOp) : Shipment :=
  ops.foldl Shipment.applyOp s

/-- The least member of the sorted list strictly greater than `x`, when
one exists ("the next member in sorted order"). -/
def nextAfter (l : List Int) (x : Int) : Option Int :=
  (l.filter fun y => x < y).head?

/-! ## Carrier registry (`shipments_manager.ShipmentsManager`)

Only the operations the claims exercise are embedded.  The
`type(shipment) is Shipment` guard of `check_and_add` is discharged by the
argument's type. -/

/-- The carrier-registry state. -/
structure ShipmentsManager where
  main_timestamp : Int
  shipments : List Shipment

namespace ShipmentsManager

/-- The freshly constructed registry. -/
def init (main_timestamp : Int) : ShipmentsManager :=
  { main_timestamp := main_timestamp, shipments := [] }

/-- `get_containers`: concatenation of `get_all_containers()` over the
member range, optionally skipping the first and/or last member
(`shipments_list[1:]`, `shipments_list[0:-1]`). -/
def get_containers (m : ShipmentsManager) (skip_first_shipment skip_last_shipment : Bool) :
    List Container :=
  let l := m.shipments
  let l := if skip_first_shipment then l.drop 1 else l
  let l := if skip_last_shipment then l.dropLast else l
  (l.map (·.get_all_containers)).flatten

/-- `_check_shipment_timestamps`.  For the first member Python computes
`max(timestamps_set)`, which raises ValueError on an empty set — the
`none` case. -/
def check_shipment_timestamps (m : ShipmentsManager) (sh : Shipment) : Option Bool :=
  let timestamps_set := sh.get_timestamps_set
  if m.shipments.isEmpty then
    match timestamps_set.max? with
    | none => none
    | some mx => some (decide (mx ≤ m.main_timestamp))
  else
    some (decide (timestamps_set.length = 1 ∧ m.main_timestamp ∈ timestamps_set))

/-- `_check_redundancy`: no container of the candidate (by identity) may
appear among the containers of the already added members. -/
def check_redundancy (m : ShipmentsManager) (sh : Shipment) : Bool :=
  decide (∀ c ∈ sh.get_all_containers, c ∉ m.get_containers false false)

/-- `check_and_add`: timestamp check (which can raise), then redundancy;
append only when both pass. -/
def check_and_add (m : ShipmentsManager) (sh : Shipment) : Option Bool × ShipmentsManager :=
  match m.check_shipment_timestamps sh with
  | none => (none, m)
  | some tsOk =>
    if tsOk && m.check_redundancy sh then
      (some true, { m with shipments := m.shipments ++ [sh] })
    else (some false, m)

/-- Python `list.remove` on the member list: drop the first shipment with
the argument's identity. -/
def removeFirstShipment (oid : Nat) : List Shipment → List Shipment
  | [] => []
  | s :: t => if s.oid = oid then t else s :: removeFirstShipment oid t

/-- The `if_can` local of the registry's `check_and_remove`: the argument
is a member (by identity) and is either the sole member or not the first
one.  The membership test, the comparison with `shipments[0]` and below
`list.remove` are Python identity tests, modelled through `oid`. -/
def check_and_remove_allowed (m : ShipmentsManager) (sh : Shipment) : Bool :=
  if m.shipments.any (fun s => s.oid == sh.oid) then
    if m.shipments.length = 1 then true
    else
      match m.shipments with
      | [] => false
      | s0 :: _ => !(s0.oid == sh.oid)
  else false

/-- `check_and_remove`: remove the member when `if_can` holds.  This
operation cannot raise: `shipments[0]` and `shipments.remove` are only
reached after the membership test succeeded, so the list is non-empty and
the argument present — hence the plain `Bool` result. -/
def check_and_remove (m : ShipmentsManager) (sh : Shipment) : Bool × ShipmentsManager :=
  if m.check_and_remove_allowed sh then
    (true, { m with shipments := removeFirstShipment sh.oid m.shipments })
  else (false, m)

end ShipmentsManager

/-! ## Scheduling loop (`system_operator.Operator.optimize`)

The report generator is pure logging and is omitted.  The pluggable
optimizer is an explicit function argument; `container_height` is the
cargo source's `const_h` (an `Option Int`, `None` before the first
accepted container). -/

/-- The optimizer contract consumed by the loop: available ships, due
containers, the batch timestamp, the constant container height and the
previous iteration's uncompleted shipment. -/
def Optimizer : Type :=
  List Ship → List Container → Int → Option Int → Option Shipment → ShipmentsManager

/-- The mutable state the scheduling loop reads and writes. -/
structure OperatorState where
  timestamp_manager : TimestampsManager
  ships_manager : ShipsManager
  containers_manager : ContainersManager

/-- Outcome of one execution of the `while True` body of `optimize`:
the loop exits because no due cargo remains (`stop`), exits through the
sentinel branch after flushing the held shipment (`finished`), continues
with a new held shipment and batch timestamp (`more`), or raises
(`error`: `shipments[-1]` on an empty registry, or a raise inside
`increase_max`). -/
inductive StepOut where
  | stop (st : OperatorState)
  | finished (st : OperatorState)
  | more (st : OperatorState) (uncompleted : Shipment) (max_timestamp : Int)
  | error (st : OperatorState)

/-- The due cargo batch fetched at the top of the loop body. -/
def dueContainers (st : OperatorState) (max_timestamp : Int) : List Container :=
  st.containers_manager.get_containers max_timestamp

/-- The timestamp window after the loop body's `set_min` call (the batch's
minimum timestamp; the batch is non-empty whenever this is used). -/
def stepTM (st : OperatorState) (max_timestamp : Int) : TimestampsManager :=
  st.timestamp_manager.set_min
    (((dueContainers st max_timestamp).map (·.timestamp)).min?.getD 0)

/-- The registry the optimizer returns for the current batch. -/
def stepRegistry (opt : Optimizer) (st : OperatorState) (uncompleted : Option Shipment)
    (max_timestamp : Int) : ShipmentsManager :=
  opt (st.ships_manager.get_available (stepTM st max_timestamp).get_min)
    (dueContainers st max_timestamp) max_timestamp
    st.containers_manager.const_h uncompleted

/-- One execution of the loop body of `Operator.optimize`. -/
def optimizeStep (opt : Optimizer) (st : OperatorState) (uncompleted : Option Shipment)
    (max_timestamp : Int) : StepOut :=
  let containers := dueContainers st max_timestamp
  if containers.isEmpty then .stop st
  else
    let tm1 := stepTM st max_timestamp
    let smgr := stepRegistry opt st uncompleted max_timestamp
    match smgr.shipments.getLast? with
    | none => .error { st with timestamp_manager := tm1 }
    | some uncompleted1 =>
      let containers_to_send := smgr.get_containers false true
      let cm1 := st.containers_manager.send containers_to_send
      let st1 : OperatorState :=
        { st with timestamp_manager := tm1, containers_manager := cm1 }
      match st1.timestamp_manager.increase_max with
      | (none, tm2) => .error { st1 with timestamp_manager := tm2 }
      | (some next_timestamp, tm2) =>
        let st2 := { st1 with timestamp_manager := tm2 }
        if -1 < next_timestamp then .more st2 uncompleted1 next_timestamp
        else
          let cm2 := st2.containers_manager.send uncompleted1.get_all_containers
          .finished { st2 with containers_manager := cm2 }

/-- The `while True` loop, fuel-indexed (each continuing iteration moves
the high cursor to a strictly larger member, so one unit of fuel per
member suffices; exhaustion and raises give `none`). -/
def optimizeLoop (opt : Optimizer) : Nat → OperatorState → Option Shipment → Int →
    Option OperatorState
  | 0, _, _, _ => none
  | fuel + 1, st, uncompleted, max_timestamp =>
    match optimizeStep opt st uncompleted max_timestamp with
    | .stop st1 => some st1
    | .finished st1 => some st1
    | .error _ => none
    | .more st1 uncompleted1 maxTs1 => optimizeLoop opt fuel st1 (some uncompleted1) maxTs1

/-- `Operator.optimize`: pull the high cursor down to the low one, then
run the loop with no held shipment. -/
def optimize (opt : Optimizer) (st : OperatorState) : Option OperatorState :=
  let tm0 := st.timestamp_manager.set_max st.timestamp_manager.get_min
  optimizeLoop opt (tm0.timestamps.length + 1)
    { st with timestamp_manager := tm0 } none tm0.get_max

/-! ## Concrete instances used by the claim theorems, counterexamples and
witnesses -/

/-- A 5 × 5 × 20 ship; with container height 10 it gives two levels. -/
def c1_ship : Ship := ⟨2, 2, 5, 5, 20, 39⟩

/-- A 2 × 2 container placed at level 0, corner (0, 0). -/
def c1_a : PlacedContainer := ⟨⟨20, 1, 2, 2, 10, 40⟩, ⟨0, 0, 0⟩⟩

/-- A 2 × 2 container placed at level 0, corner (3, 3). -/
def c1_b : PlacedContainer := ⟨⟨21, 2, 2, 2, 10, 40⟩, ⟨3, 3, 0⟩⟩

/-- The empty two-level shipment on `c1_ship`. -/
def c1_empty : Shipment := (Shipment.init c1_ship 10).getD Shipment.fallback

/-- The target of the `C1` join: only `c1_a` placed. -/
def c1_self : Shipment := (c1_empty.check_and_add c1_a).2

/-- The joined shipment of the `C1` join: only `c1_b` placed. -/
def c1_other : Shipment := (c1_empty.check_and_add c1_b).2

/-- The shifted copy of `c1_b` the join commits (level `0 + used(self) = 1`). -/
def c1_bshift : PlacedContainer := c1_b.get_shifted_copy 0 0 1

/-- A 5 × 5 × 50 ship; with container height 10 it gives five levels. -/
def c2_ship : Ship := ⟨3, 3, 5, 5, 50, 39⟩

/-- The empty five-level shipment on `c2_ship`. -/
def c2_empty : Shipment := (Shipment.init c2_ship 10).getD Shipment.fallback

/-- Level-0 2 × 2 item of the `C2` tower. -/
def c2_A : PlacedContainer := ⟨⟨10, 1, 2, 2, 10, 40⟩, ⟨0, 0, 0⟩⟩

/-- Level-1 2 × 2 item of the `C2` tower. -/
def c2_B : PlacedContainer := ⟨⟨11, 2, 2, 2, 10, 40⟩, ⟨0, 0, 1⟩⟩

/-- Level-2 2 × 2 item of the `C2` tower. -/
def c2_C : PlacedContainer := ⟨⟨12, 3, 2, 2, 10, 40⟩, ⟨0, 0, 2⟩⟩

/-- A zero-length (empty-footprint) item at level 3. -/
def c2_Z : PlacedContainer := ⟨⟨13, 4, 0, 1, 10, 40⟩, ⟨0, 0, 3⟩⟩

/-- The single level-0 item of the first joined shipment. -/
def c2_F : PlacedContainer := ⟨⟨14, 5, 2, 2, 10, 40⟩, ⟨0, 0, 0⟩⟩

/-- Level-0 item of the second joined shipment. -/
def c2_H : PlacedContainer := ⟨⟨15, 6, 2, 2, 10, 40⟩, ⟨0, 0, 0⟩⟩

/-- Level-1 item of the second joined shipment. -/
def c2_K : PlacedContainer := ⟨⟨16, 7, 2, 2, 10, 40⟩, ⟨0, 0, 1⟩⟩

/-- Level-2 item of the second joined shipment. -/
def c2_M : PlacedContainer := ⟨⟨17, 8, 2, 2, 10, 40⟩, ⟨0, 0, 2⟩⟩

/-- First joined shipment: `c2_F` alone at level 0. -/
def c2_otherA : Shipment := (c2_empty.check_and_add c2_F).2

/-- Second joined shipment: the tower `c2_H`, `c2_K`, `c2_M`. -/
def c2_otherB : Shipment :=
  (((c2_empty.check_and_add c2_H).2.check_and_add c2_K).2.check_and_add c2_M).2

/-- The `C2` operation sequence: build a tower with a zero-footprint item
on top, join a floating item above it, carve a gap, join a second tower
whose top lands on the floating item's cells, then remove that top. -/
def c2_ops : List SOp :=
  [.addOp c2_A, .addOp c2_B, .addOp c2_C, .addOp c2_Z, .joinOp c2_otherA,
   .removeOp c2_C, .joinOp c2_otherB, .removeOp (c2_M.get_shifted_copy 0 0 2)]

/-- The state after the `C2` operation sequence. -/
def c2_final : Shipment := c2_empty.applyOps c2_ops

/-- The shifted copy of `c2_F` that is still placed at level 4 at the end
of the `C2` sequence. -/
def c2_fpc : PlacedContainer := c2_F.get_shifted_copy 0 0 4

/-- A shipment holding a container with cid 7 (object id 1). -/
def c3_base : Shipment := (c1_empty.check_and_add ⟨⟨1, 7, 2, 2, 10, 40⟩, ⟨0, 0, 0⟩⟩).2

/-- A distinct container object (object id 2) with the same cid 7 and the
same dimensional and timestamp fields, at a non-overlapping position. -/
def c3_cand : PlacedContainer := ⟨⟨2, 7, 2, 2, 10, 40⟩, ⟨3, 3, 0⟩⟩

/-- A timestamp-40 container object shared between two registry members. -/
def c4_c40 : Container := ⟨7, 1, 1, 1, 10, 40⟩

/-- A first registry member holding `c4_c40`. -/
def c4_S1 : Shipment := (c1_empty.check_and_add ⟨c4_c40, ⟨0, 0, 0⟩⟩).2

/-- A second registry member holding the same `c4_c40` object. -/
def c4_S2 : Shipment := (c1_empty.check_and_add ⟨c4_c40, ⟨1, 0, 0⟩⟩).2

/-- A registry with anchor timestamp 40. -/
def c4_mgr0 : ShipmentsManager := ShipmentsManager.init 40

/-- The registry after accepting `c4_S1`. -/
def c4_mgr1 : ShipmentsManager := (c4_mgr0.check_and_add c4_S1).2

/-- First member of the spec's T = 40 scenario: cargo timestamps {39}. -/
def c4_shA : Shipment := (c1_empty.check_and_add ⟨⟨30, 5, 1, 1, 10, 39⟩, ⟨0, 0, 0⟩⟩).2

/-- Second member of the scenario: cargo timestamps {39, 40}. -/
def c4_shB : Shipment :=
  ((c1_empty.check_and_add ⟨⟨31, 6, 1, 1, 10, 39⟩, ⟨0, 0, 0⟩⟩).2.check_and_add
    ⟨⟨32, 8, 1, 1, 10, 40⟩, ⟨1, 0, 0⟩⟩).2

/-- Third member of the scenario: cargo timestamps {40}. -/
def c4_shC : Shipment := (c1_empty.check_and_add ⟨⟨33, 9, 1, 1, 10, 40⟩, ⟨0, 0, 0⟩⟩).2

/-- The scenario registry after accepting the first member. -/
def c4_mgrA : ShipmentsManager := (c4_mgr0.check_and_add c4_shA).2

/-- A window with members {1, 3, 5}, low cursor 1 and high cursor pulled
down to 1 (all via public operations). -/
def c5_tm : TimestampsManager :=
  ((((TimestampsManager.init.add 1).add 3).add 5).set_max 1)

/-- A ship distinct from `c1_ship` (different identity). -/
def c8_shipB : Ship := ⟨9, 9, 5, 5, 20, 39⟩

/-- The empty shipment on `c8_shipB`. -/
def c8_other : Shipment := (Shipment.init c8_shipB 10).getD Shipment.fallback

/-- A cargo source that has accepted one height-10 container. -/
def c9_cm : ContainersManager := (ContainersManager.init.add (some ⟨1, 1, 2, 2, 10, 5⟩) 0).2

/-- A container whose height 11 differs from the fixed height 10. -/
def c9_c2 : Container := ⟨2, 2, 2, 2, 11, 5⟩

/-- A placed container whose level 2 is out of range for a two-level
shipment. -/
def c10_pcOut : PlacedContainer := ⟨⟨40, 4, 1, 1, 10, 40⟩, ⟨0, 0, 2⟩⟩

/-- A placed container with a valid level that is absent from the
shipment. -/
def c10_pcAbsent : PlacedContainer := ⟨⟨41, 4, 1, 1, 10, 40⟩, ⟨0, 0, 1⟩⟩

/-- The ship of the scheduling-loop witness. -/
def c7_ship : Ship := ⟨50, 4, 5, 5, 20, 0⟩

/-- First due container of the scheduling-loop witness. -/
def c7_c1 : Container := ⟨60, 11, 1, 1, 10, 5⟩

/-- Second due container of the scheduling-loop witness. -/
def c7_c2 : Container := ⟨61, 12, 1, 1, 10, 5⟩

/-- The completed registry member of the witness batch. -/
def c7_sh1 : Shipment :=
  (((Shipment.init c7_ship 10).getD Shipment.fallback).check_and_add ⟨c7_c1, ⟨0, 0, 0⟩⟩).2

/-- The trailing (incomplete) registry member of the witness batch. -/
def c7_sh2 : Shipment :=
  (((Shipment.init c7_ship 10).getD Shipment.fallback).check_and_add ⟨c7_c2, ⟨0, 0, 0⟩⟩).2

/-- A constant optimizer returning the two-member registry above. -/
def c7_opt : Optimizer := fun _ _ _ _ _ => ⟨5, [c7_sh1, c7_sh2]⟩

/-- The witness window: members {5, 7}, low 5, high 7. -/
def c7_tm : TimestampsManager := (TimestampsManager.init.add 5).add 7

/-- The witness cargo source: both containers waiting, fixed height 10. -/
def c7_cm : ContainersManager :=
  { ContainersManager.init with waiting_containers := [c7_c1, c7_c2], const_h := some 10 }

/-- The witness loop state. -/
def c7_st : OperatorState := ⟨c7_tm, ⟨3, []⟩, c7_cm⟩

/-- One call of a public mutating `ContainersManager` operation. -/
inductive CMOp where
  | addOp (parsed : Option Container) (min_timestamp : Int)
  | sendOp (cs : List Container)

/-- The state after one cargo-source operation call. -/
def ContainersManager.applyOp (cm : ContainersManager) : CMOp → ContainersManager
  | .addOp p t => (cm.add p t).2
  | .sendOp cs => cm.send cs

/-- The state after a sequence of cargo-source operation calls. -/
def ContainersManager.applyOps (cm : ContainersManager) (ops : List CMOp) : ContainersManager :=
  ops.foldl ContainersManager.applyOp cm

/-- The uniform-height invariant of the cargo source: before the first
accepted container both lists are empty, and once `const_h` is fixed every
held container has exactly that height. -/
def ContainersManager.HeightInv (cm : ContainersManager) : Prop :=
  (cm.const_h = none → cm.waiting_containers = [] ∧ cm.sent_containers = []) ∧
  (∀ h, cm.const_h = some h →
    ∀ c ∈ cm.waiting_containers ++ cm.sent_containers, c.height = h)

/-! ## Generic helper lemmas -/

/-- A successfully resolved Python index is within the dimension. -/
theorem pyListIdx_lt {n : Nat} {i : Int} {j : Nat} (h : pyListIdx n i = some j) : j < n := by
  unfold pyListIdx at h
  by_cases h0 : 0 ≤ i
  · rw [if_pos h0] at h
    by_cases h1 : i < (n : Int)
    · rw [if_pos h1] at h
      cases h
      omega
    · rw [if_neg h1] at h
      cases h
  · rw [if_neg h0] at h
    by_cases h2 : 0 ≤ (n : Int) + i
    · rw [if_pos h2] at h
      cases h
      omega
    · rw [if_neg h2] at h
      cases h

/-- In-range non-negative indices resolve to themselves. -/
theorem pyListIdx_of_bounds {n : Nat} {i : Int} (h0 : 0 ≤ i) (h1 : i < (n : Int)) :
    pyListIdx n i = some i.toNat := by
  unfold pyListIdx
  rw [if_pos h0, if_pos h1]

/-- Setting a list entry and reading it back. -/
theorem getD_set_self {α : Type} (l : List α) (i : Nat) (a d : α) (h : i < l.length) :
    (l.set i a).getD i d = a := by
  induction l generalizing i with
  | nil => simp at h
  | cons b t ih =>
    cases i with
    | zero => rfl
    | succ j => exact ih j (by simpa using h)

/-- Setting a list entry leaves the other entries unchanged. -/
theorem getD_set_ne {α : Type} (l : List α) (i j : Nat) (a d : α) (h : i ≠ j) :
    (l.set i a).getD j d = l.getD j d := by
  induction l generalizing i j with
  | nil => rfl
  | cons b t ih =>
    cases i with
    | zero =>
      cases j with
      | zero => exact absurd rfl h
      | succ k => rfl
    | succ i' =>
      cases j with
      | zero => rfl
      | succ k => exact ih i' k (by omega)

/-- Removing one element keeps the other members. -/
theorem mem_pyRemoveFirst_of_ne {α : Type} [DecidableEq α] {a x : α} {l : List α}
    (hne : a ≠ x) (h : a ∈ l) : a ∈ pyRemoveFirst x l := by
  induction l with
  | nil => cases h
  | cons b t ih =>
    unfold pyRemoveFirst
    rcases List.mem_cons.mp h with rfl | ht
    · rw [if_neg (by exact fun hbx => hne hbx)]
      exact List.mem_cons_self a (pyRemoveFirst x t)
    · by_cases hbx : b = x
      · rw [if_pos hbx]
        exact ht
      · rw [if_neg hbx]
        exact List.mem_cons_of_mem b (ih ht)

/-- Members of the removal result were members before. -/
theorem mem_of_mem_pyRemoveFirst {α : Type} [DecidableEq α] {a x : α} {l : List α}
    (h : a ∈ pyRemoveFirst x l) : a ∈ l := by
  induction l with
  | nil => cases h
  | cons b t ih =>
    unfold pyRemoveFirst at h
    by_cases hbx : b = x
    · rw [if_pos hbx] at h
      exact List.mem_cons_of_mem b h
    · rw [if_neg hbx] at h
      rcases List.mem_cons.mp h with rfl | ht
      · exact List.mem_cons_self a t
      · exact List.mem_cons_of_mem b (ih ht)

/-! ## Lemmas about the placement checks -/

namespace Shipment

/-- Under the bounds check, the level index of the candidate resolves. -/
theorem mapLevelIdx_of_inside {s : Shipment} {pc : PlacedContainer}
    (h : s.check_if_inside_ship pc = true) :
    s.mapLevelIdx pc = some pc.corner1.height_level.toNat := by
  unfold check_if_inside_ship at h
  rw [decide_eq_true_eq] at h
  exact pyListIdx_of_bounds h.1 h.2.1

/-- Under the bounds check, the overlap check cannot raise. -/
theorem check_if_unoccupied_total {s : Shipment} {pc : PlacedContainer} (m : OccMap)
    (h : s.check_if_inside_ship pc = true) :
    ∃ b, s.check_if_unoccupied pc m = some b := by
  unfold check_if_unoccupied
  rw [mapLevelIdx_of_inside h]
  exact ⟨_, rfl⟩

/-- Under the bounds check, the stability check cannot raise. -/
theorem check_if_stable_total {s : Shipment} {pc : PlacedContainer} (m : OccMap)
    (h : s.check_if_inside_ship pc = true) :
    ∃ b, s.check_if_stable pc m = some b := by
  unfold check_if_stable
  by_cases h0 : pc.corner1.height_level = 0
  · rw [if_pos h0]
    exact ⟨true, rfl⟩
  · rw [if_neg h0]
    unfold check_if_inside_ship at h
    rw [decide_eq_true_eq] at h
    rw [pyListIdx_of_bounds (by omega) (by omega)]
    exact ⟨_, rfl⟩

end Shipment

/-! ## Claim C1 -/

/-- C1 (code bug): `check_and_join` is claimed to succeed only when every
shifted item is stable against the target's current grid; in this concrete
run the join succeeds and commits the shifted copy of `c1_b` at level 1
even though that shifted item fails the code's own stability test against
the target's current grid. -/
theorem C1_join_tests_unshifted_item :
    (c1_self.check_and_join c1_other).1 = some true ∧
    c1_self.check_if_stable c1_bshift c1_self.occupancy_map = some false ∧
    c1_bshift ∈ ((c1_self.check_and_join c1_other).2.level 1) :=
  ⟨by decide, by decide, by decide⟩

/-! ## Claim C3 -/

/-- C3 (counterexample): a candidate whose container is a distinct object
with the same cargo identifier (and identical fields) as an already placed
one is accepted by `check_and_add`, because the redundancy test uses
object identity, not the identifier. -/
theorem C3_counterexample :
    (c3_base.check_and_add c3_cand).1 = some true ∧
    c3_cand.container.cid ∈ c3_base.all_containers.map (·.cid) ∧
    c3_cand.container ∉ c3_base.all_containers :=
  ⟨by decide, by decide, by decide⟩

/-- C3 (amended): `check_and_add` fails (and leaves the state unchanged)
whenever the candidate's cargo object itself — same identity, not merely
the same identifier — is already placed in the shipment. -/
theorem C3_amended_identity_redundancy (s : Shipment) (pc : PlacedContainer)
    (h : pc.container ∈ s.all_containers) :
    s.check_and_add pc = (some false, s) := by
  unfold Shipment.check_and_add
  have hred : s.check_redundancy pc = false := by
    unfold Shipment.check_redundancy
    simp [h]
  by_cases hin : s.check_if_inside_ship pc = true
  · obtain ⟨b1, hb1⟩ := Shipment.check_if_unoccupied_total s.occupancy_map hin
    obtain ⟨b2, hb2⟩ := Shipment.check_if_stable_total s.occupancy_map hin
    rw [hin]
    simp only [if_true]
    rw [hb1]
    cases b1 with
    | false => rfl
    | true =>
      simp only
      rw [hb2]
      cases b2 with
      | false => rfl
      | true =>
        simp only
        rw [hred]
  · rw [Bool.not_eq_true] at hin
    rw [hin]
    rfl

/-- C3 (witness): the amended redundancy behaviour at a concrete input —
re-adding the very container object already placed in `c3_base` fails. -/
theorem C3_amended_witness :
    c3_base.check_and_add ⟨⟨1, 7, 2, 2, 10, 40⟩, ⟨3, 3, 0⟩⟩ =
      (some false, c3_base) :=
  C3_amended_identity_redundancy c3_base ⟨⟨1, 7, 2, 2, 10, 40⟩, ⟨3, 3, 0⟩⟩ (by decide)

/-! ## Claim C10 -/

/-- C10 (counterexample): `check_and_remove` applied to an item whose
level is out of range raises (IndexError on the per-level list) instead of
returning `False`; the state is unchanged but the claim's "returns False
without raising" fails. -/
theorem C10_counterexample :
    (c1_empty.check_and_remove c10_pcOut).1 = none ∧
    (c1_empty.check_and_remove c10_pcOut).2 = c1_empty :=
  ⟨by decide, rfl⟩

/-- C10 (amended): for an item whose height level is a valid Python index
into the per-level lists and which is not present (by identity) in the
list at that index, `check_and_remove` returns `False` without raising and
leaves the shipment unchanged. -/
theorem C10_amended_remove_absent (s : Shipment) (pc : PlacedContainer) (lv : Nat)
    (hidx : pyListIdx s.levels_nr pc.corner1.height_level = some lv)
    (habs : pc ∉ s.level lv) :
    s.check_and_remove pc = (some false, s) := by
  unfold Shipment.check_and_remove
  rw [hidx]
  simp [habs]

/-- C10 (witness): the amended behaviour at a concrete input — removing a
valid-level item that was never placed returns `False` and changes
nothing. -/
theorem C10_amended_witness :
    c1_empty.check_and_remove c10_pcAbsent = (some false, c1_empty) :=
  C10_amended_remove_absent c1_empty c10_pcAbsent 1 (by decide) (by decide)

/-! ## Claim C8 -/

/-- C8: `check_and_join` is all-or-nothing — when the ships differ, the
used-levels sum exceeds the level count, or the check phase rejects some
item, the call returns `False` and the target shipment (grid, per-level
lists and flat cargo list) is exactly its pre-call value. -/
theorem C8_join_atomic (s other : Shipment)
    (h : s.ship ≠ other.ship ∨
         s.levels_nr < s.get_used_levels_nr + other.get_used_levels_nr ∨
         ∃ l, s.joinScan s.get_used_levels_nr other.placed_containers_levels = some (false, l)) :
    s.check_and_join other = (some false, s) := by
  unfold Shipment.check_and_join
  by_cases hs : s.ship = other.ship
  · rw [if_pos hs]
    simp only
    by_cases hn : s.get_used_levels_nr + other.get_used_levels_nr ≤ s.levels_nr
    · rw [if_pos hn]
      rcases h with h | h | ⟨l, hl⟩
      · exact absurd hs h
      · omega
      · rw [hl]
    · rw [if_neg hn]
  · rw [if_neg hs]

/-- C8 (witness): joining a shipment based on a different ship returns
`False` and leaves the target untouched. -/
theorem C8_witness : c1_self.check_and_join c8_other = (some false, c1_self) :=
  C8_join_atomic c1_self c8_other (Or.inl (by decide))

/-! ## Claim C2: the occupancy/footprint invariant -/

namespace Shipment

/-- Footprints only depend on the stored map dimensions. -/
theorem fpContains_congr {s s' : Shipment} (hlen : s'.lenDim = s.lenDim)
    (hwid : s'.widDim = s.widDim) (q : PlacedContainer) (x y : Nat) :
    s'.fpContains q x y ↔ s.fpContains q x y := by
  unfold fpContains sliceL1 sliceL2 sliceW1 sliceW2
  rw [hlen, hwid]

/-- Coverage after marking a footprint and appending its item: the newly
marked cells are exactly the new item's footprint, and old cells keep
their covering item. -/
theorem covered_mark_append {s s' : Shipment} {pc : PlacedContainer} {lv : Nat}
    (hlt : lv < s.placed_containers_levels.length)
    (hocc : s'.occupancy_map =
      markCells s.occupancy_map lv (s.sliceL1 pc) (s.sliceL2 pc) (s.sliceW1 pc) (s.sliceW2 pc) true)
    (hlev : s'.placed_containers_levels = s.placed_containers_levels.set lv (s.level lv ++ [pc]))
    (hlen : s'.lenDim = s.lenDim) (hwid : s'.widDim = s.widDim)
    (hc : s.Covered) : s'.Covered := by
  intro l x y hxy
  rw [hocc] at hxy
  unfold markCells at hxy
  by_cases hcond : l = lv ∧ s.sliceL1 pc ≤ x ∧ x < s.sliceL2 pc ∧
      s.sliceW1 pc ≤ y ∧ y < s.sliceW2 pc
  · refine ⟨pc, ?_, ?_⟩
    · unfold level
      rw [hlev, hcond.1, getD_set_self _ _ _ _ hlt]
      exact List.mem_append_right _ (List.mem_singleton.mpr rfl)
    · rw [fpContains_congr hlen hwid]
      exact hcond.2
  · rw [if_neg hcond] at hxy
    obtain ⟨q, hq, hfp⟩ := hc l x y hxy
    refine ⟨q, ?_, ?_⟩
    · unfold level
      rw [hlev]
      by_cases hl : l = lv
      · rw [hl, getD_set_self _ _ _ _ hlt]
        rw [hl] at hq
        exact List.mem_append_left _ hq
      · rw [getD_set_ne _ _ _ _ _ (fun hh => hl hh.symm)]
        exact hq
    · rw [fpContains_congr hlen hwid]
      exact hfp

/-- `_add` preserves coverage. -/
theorem covered_priv_add {s s' : Shipment} {pc : PlacedContainer}
    (h : s.priv_add pc = some s') (hc : s.Covered) : s'.Covered := by
  unfold priv_add at h
  cases hidx : s.mapLevelIdx pc with
  | none => rw [hidx] at h; cases h
  | some lv =>
    rw [hidx] at h
    have hlt : lv < s.placed_containers_levels.length := pyListIdx_lt hidx
    obtain rfl := Option.some.inj h
    exact covered_mark_append hlt rfl rfl rfl rfl hc

/-- Clearing a rectangle, possibly together with removing one item of the
corresponding level whose footprint is the cleared rectangle, keeps every
remaining occupied cell covered.  The per-level lists either stay
unchanged or lose the cleared item. -/
theorem covered_clear_core {s s' : Shipment} {pc : PlacedContainer} {lv : Nat}
    (hocc : s'.occupancy_map =
      markCells s.occupancy_map lv (s.sliceL1 pc) (s.sliceL2 pc) (s.sliceW1 pc) (s.sliceW2 pc) false)
    (hlev : s'.placed_containers_levels = s.placed_containers_levels ∨
      s'.placed_containers_levels = s.placed_containers_levels.set lv (pyRemoveFirst pc (s.level lv)))
    (hlen : s'.lenDim = s.lenDim) (hwid : s'.widDim = s.widDim)
    (hc : s.Covered) : s'.Covered := by
  intro l x y hxy
  rw [hocc] at hxy
  unfold markCells at hxy
  by_cases hcond : l = lv ∧ s.sliceL1 pc ≤ x ∧ x < s.sliceL2 pc ∧
      s.sliceW1 pc ≤ y ∧ y < s.sliceW2 pc
  · rw [if_pos hcond] at hxy
    cases hxy
  · rw [if_neg hcond] at hxy
    obtain ⟨q, hq, hfp⟩ := hc l x y hxy
    refine ⟨q, ?_, (fpContains_congr hlen hwid q x y).mpr hfp⟩
    unfold level
    rcases hlev with hlev | hlev
    · rw [hlev]
      exact hq
    · rw [hlev]
      by_cases hl : l = lv
      · subst hl
        by_cases hlt : l < s.placed_containers_levels.length
        · by_cases hqpc : q = pc
          · subst hqpc
            exact absurd ⟨rfl, hfp.1, hfp.2.1, hfp.2.2.1, hfp.2.2.2⟩ hcond
          · rw [getD_set_self _ _ _ _ hlt]
            exact mem_pyRemoveFirst_of_ne hqpc hq
        · exfalso
          have hnil : s.level l = [] := by
            unfold level
            rw [List.getD_eq_default]
            omega
          rw [hnil] at hq
          cases hq
      · rw [getD_set_ne _ _ _ _ _ (fun hh => hl hh.symm)]
        exact hq

/-- `_remove` preserves coverage in every one of its (possibly raising)
outcomes. -/
theorem covered_priv_remove {s : Shipment} (pc : PlacedContainer) (hc : s.Covered) :
    ((s.priv_remove pc).2).Covered := by
  unfold priv_remove
  cases hidx : s.mapLevelIdx pc with
  | none => exact hc
  | some lv =>
    simp only
    split
    · split
      · exact covered_clear_core rfl (Or.inr rfl) rfl rfl hc
      · exact covered_clear_core rfl (Or.inr rfl) rfl rfl hc
    · exact covered_clear_core rfl (Or.inl rfl) rfl rfl hc

/-- `check_and_add` preserves coverage. -/
theorem covered_check_and_add (s : Shipment) (pc : PlacedContainer) (hc : s.Covered) :
    ((s.check_and_add pc).2).Covered := by
  unfold check_and_add
  dsimp only
  split
  · exact hc
  · exact hc
  · split
    · exact hc
    · rename_i s' hadd
      exact covered_priv_add hadd hc

/-- `check_and_remove` preserves coverage. -/
theorem covered_check_and_remove (s : Shipment) (pc : PlacedContainer) (hc : s.Covered) :
    ((s.check_and_remove pc).2).Covered := by
  unfold check_and_remove
  cases hidx : pyListIdx s.levels_nr pc.corner1.height_level with
  | none => exact hc
  | some lv =>
    dsimp only
    by_cases hmem : pc ∈ s.level lv
    · rw [if_pos hmem]
      cases hsup : s.get_supported_containers pc with
      | none => exact hc
      | some supported =>
        dsimp only
        by_cases hemp : supported.isEmpty
        · rw [if_pos hemp]
          cases hrem : s.priv_remove pc with
          | mk r s' =>
            have h2 : (s.priv_remove pc).2 = s' := by rw [hrem]
            cases r with
            | none =>
              dsimp only
              rw [← h2]
              exact covered_priv_remove pc hc
            | some u =>
              dsimp only
              rw [← h2]
              exact covered_priv_remove pc hc
        · rw [if_neg hemp]
          exact hc
    · rw [if_neg hmem]
      exact hc

/-- Both recursive-removal workers preserve coverage, at every fuel. -/
theorem covered_removeRec (fuel : Nat) :
    (∀ s pc, Shipment.Covered s → ((Shipment.remove_recursively_fuel fuel s pc).2).Covered) ∧
    (∀ s l, Shipment.Covered s → ((Shipment.removeRecList fuel s l).2).Covered) := by
  induction fuel with
  | zero =>
    constructor
    · intro s pc hc
      unfold remove_recursively_fuel
      exact hc
    · intro s l hc
      cases l with
      | nil =>
        unfold removeRecList
        exact hc
      | cons x t =>
        unfold removeRecList remove_recursively_fuel
        exact hc
  | succ fuel ih =>
    have hrr : ∀ s pc, Shipment.Covered s →
        ((Shipment.remove_recursively_fuel (fuel + 1) s pc).2).Covered := by
      intro s pc hc
      unfold remove_recursively_fuel
      cases hsup : s.get_supported_containers pc with
      | none => exact hc
      | some supported =>
        dsimp only
        cases hlist : Shipment.removeRecList fuel s supported with
        | mk r1 s' =>
          have hs' : (Shipment.removeRecList fuel s supported).2 = s' := by rw [hlist]
          have hcs' : Shipment.Covered s' := by
            rw [← hs']
            exact ih.2 s supported hc
          cases r1 with
          | none =>
            dsimp only
            exact hcs'
          | some u =>
            dsimp only
            cases hrem : s'.priv_remove pc with
            | mk r2 s2 =>
              have h2 : (s'.priv_remove pc).2 = s2 := by rw [hrem]
              cases r2 with
              | none =>
                dsimp only
                rw [← h2]
                exact covered_priv_remove pc hcs'
              | some u2 =>
                dsimp only
                rw [← h2]
                exact covered_priv_remove pc hcs'
    refine ⟨hrr, ?_⟩
    intro s l
    induction l generalizing s with
    | nil =>
      intro hc
      unfold removeRecList
      exact hc
    | cons x t ihl =>
      intro hc
      unfold removeRecList
      cases hx : Shipment.remove_recursively_fuel (fuel + 1) s x with
      | mk r s' =>
        have hs' : (Shipment.remove_recursively_fuel (fuel + 1) s x).2 = s' := by rw [hx]
        have hcs' : Shipment.Covered s' := by
          rw [← hs']
          exact hrr s x hc
        cases r with
        | none =>
          dsimp only
          exact hcs'
        | some u =>
          dsimp only
          exact ihl s' hcs'

/-- `remove_recursively` preserves coverage. -/
theorem covered_remove_recursively (s : Shipment) (pc : PlacedContainer) (hc : s.Covered) :
    ((s.remove_recursively pc).2).Covered :=
  (covered_removeRec (s.levels_nr + 1)).1 s pc hc

/-- The commit loop of `check_and_join` preserves coverage. -/
theorem covered_commitList (l : List PlacedContainer) :
    ∀ s : Shipment, s.Covered → ((Shipment.commitList s l).2).Covered := by
  induction l with
  | nil => intro s hc; exact hc
  | cons pc t ih =>
    intro s hc
    unfold commitList
    cases hadd : s.priv_add pc with
    | none => exact hc
    | some s' => exact ih s' (covered_priv_add hadd hc)

/-- `check_and_join` preserves coverage. -/
theorem covered_check_and_join (s other : Shipment) (hc : s.Covered) :
    ((s.check_and_join other).2).Covered := by
  unfold check_and_join
  split
  · dsimp only
    split
    · split
      · exact hc
      · exact hc
      · rename_i to_add hscan
        split
        · rename_i u s' hcommit
          have : (Shipment.commitList s to_add).2 = s' := congrArg Prod.snd hcommit
          rw [← this]
          exact covered_commitList to_add s hc
        · rename_i s' hcommit
          have : (Shipment.commitList s to_add).2 = s' := congrArg Prod.snd hcommit
          rw [← this]
          exact covered_commitList to_add s hc
    · exact hc
  · exact hc

/-- Every public mutating operation preserves coverage. -/
theorem covered_applyOp (s : Shipment) (op : SOp) (hc : s.Covered) :
    (s.applyOp op).Covered := by
  cases op with
  | addOp pc => exact covered_check_and_add s pc hc
  | removeOp pc => exact covered_check_and_remove s pc hc
  | removeRecOp pc => exact covered_remove_recursively s pc hc
  | joinOp other => exact covered_check_and_join s other hc

/-- A whole operation sequence preserves coverage. -/
theorem covered_applyOps (ops : List SOp) :
    ∀ s : Shipment, s.Covered → (s.applyOps ops).Covered := by
  induction ops with
  | nil => intro s hc; exact hc
  | cons op t ih =>
    intro s hc
    exact ih (s.applyOp op) (covered_applyOp s op hc)

end Shipment

/-- C2 (counterexample): after the concrete sequence `c2_ops` of public
operations starting from the empty five-level shipment, the shifted copy
of `c2_F` is still placed at level 4 and cell (4, 0, 0) lies inside its
footprint, yet that cell is unoccupied — the occupancy grid is not the
exact union of the placed footprints. -/
theorem C2_counterexample :
    c2_fpc ∈ c2_final.level 4 ∧ c2_final.fpContains c2_fpc 0 0 ∧
    c2_final.occupancy_map 4 0 0 = false :=
  ⟨by decide, by decide, by decide⟩

/-- C2 (amended): one direction of the invariant does hold over every
operation sequence from a freshly constructed shipment — every occupied
cell lies inside the footprint of some currently placed item.  (The other
direction fails, see the counterexample.) -/
theorem C2_amended_occupied_covered (ship : Ship) (ch : Int) (s : Shipment) (ops : List SOp)
    (h : Shipment.init ship ch = some s) : (s.applyOps ops).Covered := by
  apply Shipment.covered_applyOps
  unfold Shipment.init at h
  split at h
  · obtain rfl := Option.some.inj h
    intro lv x y hxy
    cases hxy
  · cases h

/-- C2 (witness): the amended invariant at a concrete input — after one
successful placement on a fresh shipment, every occupied cell is covered. -/
theorem C2_amended_witness : (c1_empty.applyOps [SOp.addOp c1_a]).Covered :=
  C2_amended_occupied_covered c1_ship 10 c1_empty [SOp.addOp c1_a] rfl

/-! ## Claims C5 and C6: the timestamp window -/

/-- The last element of a list, when it exists, is a member. -/
theorem mem_of_getLast? {l : List Int} {m : Int} (h : l.getLast? = some m) : m ∈ l := by
  induction l with
  | nil => cases h
  | cons a t ih =>
    cases t with
    | nil =>
      obtain rfl : a = m := by simpa using h
      exact List.mem_singleton.mpr rfl
    | cons b t2 =>
      rw [List.getLast?_cons_cons] at h
      exact List.mem_cons_of_mem a (ih h)

/-- A non-empty list has a last element. -/
theorem getLast?_isSome_of_ne_nil {l : List Int} (h : l ≠ []) : ∃ m, l.getLast? = some m := by
  induction l with
  | nil => exact absurd rfl h
  | cons a t ih =>
    cases t with
    | nil => exact ⟨a, rfl⟩
    | cons b t2 =>
      obtain ⟨m, hm⟩ := ih (by simp)
      exact ⟨m, by rw [List.getLast?_cons_cons]; exact hm⟩

/-- In a strictly sorted list every member is at most the last element. -/
theorem le_getLast?_of_sorted {l : List Int} (hs : l.Sorted (· < ·)) :
    ∀ m, l.getLast? = some m → ∀ y ∈ l, y ≤ m := by
  induction l with
  | nil => intro m hm; cases hm
  | cons a t ih =>
    intro m hm y hy
    rw [List.sorted_cons] at hs
    cases t with
    | nil =>
      obtain rfl : a = m := by simpa using hm
      rcases List.mem_cons.mp hy with rfl | h
      · exact le_refl y
      · cases h
    | cons b t2 =>
      rw [List.getLast?_cons_cons] at hm
      rcases List.mem_cons.mp hy with rfl | hyt
      · exact le_of_lt (hs.1 m (mem_of_getLast? hm))
      · exact ih hs.2 m hm y hyt

/-- head? of a list yields a member. -/
theorem mem_of_head? {l : List Int} {v : Int} (h : l.head? = some v) : v ∈ l := by
  cases l with
  | nil => cases h
  | cons a t =>
    rw [List.head?_cons] at h
    obtain rfl := Option.some.inj h
    exact List.mem_cons_self a t

/-- The position after a member of a strictly sorted list holds exactly
the least strictly larger member (`SortedList.index(x) + 1`). -/
theorem get?_indexOf_succ {l : List Int} (hs : l.Sorted (· < ·)) {x : Int} (hx : x ∈ l) :
    l.get? (List.indexOf x l + 1) = nextAfter l x := by
  induction l with
  | nil => cases hx
  | cons a t ih =>
    rw [List.sorted_cons] at hs
    by_cases hax : x = a
    · subst hax
      rw [List.indexOf_cons_self]
      unfold nextAfter
      rw [List.filter_cons, if_neg (by simp)]
      have hft : t.filter (fun y => decide (x < y)) = t :=
        List.filter_eq_self.mpr (fun b hb => decide_eq_true (hs.1 b hb))
      rw [hft, List.get?_cons_succ]
      cases t with
      | nil => rfl
      | cons b t2 => rfl
    · have hxt : x ∈ t := by
        rcases List.mem_cons.mp hx with rfl | h
        · exact absurd rfl hax
        · exact h
      rw [List.indexOf_cons_ne t (fun h => hax h.symm), Nat.succ_eq_add_one,
        List.get?_cons_succ]
      unfold nextAfter
      have hax2 := hs.1 x hxt
      rw [List.filter_cons, if_neg (by simp only [decide_eq_true_eq]; omega)]
      exact ih hs.2 hxt

/-- A member strictly above the cursor makes `nextAfter` succeed. -/
theorem nextAfter_isSome {l : List Int} {x y : Int} (hy : y ∈ l) (hxy : x < y) :
    ∃ v, nextAfter l x = some v := by
  unfold nextAfter
  cases hf : l.filter (fun z => decide (x < z)) with
  | nil =>
    exfalso
    have : y ∈ l.filter (fun z => decide (x < z)) :=
      List.mem_filter.mpr ⟨hy, decide_eq_true hxy⟩
    rw [hf] at this
    cases this
  | cons a t => exact ⟨a, rfl⟩

/-- C5 (counterexample): with members {1, 3, 5}, low cursor 1 and high
cursor 1 (a state reached through public operations), `increase_min` does
not move the low cursor to the next larger member 3 and does not return
the sentinel either — it returns the unchanged cursor 1. -/
theorem C5_counterexample :
    c5_tm.timestamps = [1, 3, 5] ∧ c5_tm.min = 1 ∧ c5_tm.max = 1 ∧
    (c5_tm.increase_min).1 = some 1 ∧ (c5_tm.increase_min).2 = c5_tm :=
  ⟨by decide, by decide, by decide, by decide, by decide⟩

/-- C5 (amended): for a window whose backing list is strictly sorted,
whose cursors are members and satisfy low ≤ high: `increase_max` moves the
high cursor to the next strictly larger member and returns it, with the
sentinel `-1` and no mutation exactly when the cursor sits at the largest
member; `increase_min` does the same except that when the next larger
member exceeds the current high cursor it mutates nothing and returns the
unchanged low cursor (not the sentinel). -/
theorem C5_amended_cursor_advance (tm : TimestampsManager)
    (hs : tm.timestamps.Sorted (· < ·))
    (hmin : tm.min ∈ tm.timestamps) (hmax : tm.max ∈ tm.timestamps)
    (hmm : tm.min ≤ tm.max) :
    ((∀ y ∈ tm.timestamps, y ≤ tm.max) → tm.increase_max = (some (-1), tm)) ∧
    (∀ v, nextAfter tm.timestamps tm.max = some v →
       tm.increase_max = (some v, { tm with max := v })) ∧
    ((∀ y ∈ tm.timestamps, y ≤ tm.min) → tm.increase_min = (some (-1), tm)) ∧
    (∀ v, nextAfter tm.timestamps tm.min = some v → v ≤ tm.max →
       tm.increase_min = (some v, { tm with min := v })) ∧
    (∀ v, nextAfter tm.timestamps tm.min = some v → tm.max < v →
       tm.increase_min = (some tm.min, tm)) := by
  obtain ⟨last, hlast⟩ := getLast?_isSome_of_ne_nil (List.ne_nil_of_mem hmin)
  have hlastmem : last ∈ tm.timestamps := mem_of_getLast? hlast
  have hle : ∀ y ∈ tm.timestamps, y ≤ last := le_getLast?_of_sorted hs last hlast
  refine ⟨?_, ?_, ?_, ?_, ?_⟩
  · intro hall
    unfold TimestampsManager.increase_max
    rw [hlast]
    dsimp only
    rw [if_neg (not_lt.mpr (hall last hlastmem))]
  · intro v hv
    have hvf : v ∈ tm.timestamps.filter (fun y => decide (tm.max < y)) :=
      mem_of_head? hv
    rw [List.mem_filter, decide_eq_true_eq] at hvf
    unfold TimestampsManager.increase_max
    rw [hlast]
    dsimp only
    rw [if_pos (lt_of_lt_of_le hvf.2 (hle v hvf.1)), if_pos hmax,
      get?_indexOf_succ hs hmax, hv]
    dsimp only
    unfold TimestampsManager.set_max_directly
    rw [if_pos (le_of_lt (lt_of_le_of_lt hmm hvf.2))]
    rfl
  · intro hall
    unfold TimestampsManager.increase_min
    rw [hlast]
    dsimp only
    rw [if_neg (not_lt.mpr (hall last hlastmem))]
  · intro v hv hvmax
    have hvf : v ∈ tm.timestamps.filter (fun y => decide (tm.min < y)) :=
      mem_of_head? hv
    rw [List.mem_filter, decide_eq_true_eq] at hvf
    unfold TimestampsManager.increase_min
    rw [hlast]
    dsimp only
    rw [if_pos (lt_of_lt_of_le hvf.2 (hle v hvf.1)), if_pos hmin,
      get?_indexOf_succ hs hmin, hv]
    dsimp only
    unfold TimestampsManager.set_min_directly
    rw [if_pos hvmax]
    rfl
  · intro v hv hvmax
    have hvf : v ∈ tm.timestamps.filter (fun y => decide (tm.min < y)) :=
      mem_of_head? hv
    rw [List.mem_filter, decide_eq_true_eq] at hvf
    unfold TimestampsManager.increase_min
    rw [hlast]
    dsimp only
    rw [if_pos (lt_of_lt_of_le hvf.2 (hle v hvf.1)), if_pos hmin,
      get?_indexOf_succ hs hmin, hv]
    dsimp only
    unfold TimestampsManager.set_min_directly
    rw [if_neg (not_le.mpr hvmax)]
    rfl

/-- C5 (witness): the amended behaviour at the concrete window `c5_tm` —
the next member 3 exceeds the high cursor 1, so `increase_min` returns the
unchanged low cursor. -/
theorem C5_amended_witness : c5_tm.increase_min = (some c5_tm.min, c5_tm) :=
  (C5_amended_cursor_advance c5_tm (by decide) (by decide) (by decide)
    (by decide)).2.2.2.2 3 (by decide) (by decide)

/-- C6 (counterexample): public check operations raise on inputs the claim
covers — advancing the low cursor of the freshly constructed (empty)
timestamp window raises IndexError, the registry's `check_and_add` applied
to a shipment holding no cargo raises ValueError inside the timestamp
check (`max` of an empty set), and the shipment's `check_and_remove`
applied to an item with an out-of-range level raises IndexError. -/
theorem C6_counterexample :
    (TimestampsManager.init.increase_min).1 = none ∧
    ((ShipmentsManager.init 40).check_and_add c1_empty).1 = none ∧
    (c1_empty.check_and_remove c10_pcOut).1 = none :=
  ⟨by decide, by decide, by decide⟩

/-- The placement engine's `check_and_add` is total: the bounds check
resolves every index before it is used, so no input makes it raise. -/
theorem check_and_add_total (s : Shipment) (pc : PlacedContainer) :
    (s.check_and_add pc).1 ≠ none := by
  unfold Shipment.check_and_add
  dsimp only
  by_cases hin : s.check_if_inside_ship pc = true
  · rw [if_pos hin]
    obtain ⟨b1, hb1⟩ := Shipment.check_if_unoccupied_total s.occupancy_map hin
    obtain ⟨b2, hb2⟩ := Shipment.check_if_stable_total s.occupancy_map hin
    rw [hb1]
    cases b1 with
    | false => simp
    | true =>
      dsimp only
      rw [hb2]
      cases b2 with
      | false => simp
      | true =>
        dsimp only
        cases hred : s.check_redundancy pc with
        | false => simp
        | true =>
          dsimp only
          unfold Shipment.priv_add
          rw [Shipment.mapLevelIdx_of_inside hin]
          simp
  · rw [Bool.not_eq_true] at hin
    rw [hin]
    simp

/-- A `False` result of `check_and_join` leaves the target unchanged (the
commit loop runs only after every check passed). -/
theorem join_false_unchanged (s other : Shipment)
    (h : (s.check_and_join other).1 = some false) : (s.check_and_join other).2 = s := by
  unfold Shipment.check_and_join at h ⊢
  by_cases hs : s.ship = other.ship
  · rw [if_pos hs] at h ⊢
    dsimp only at h ⊢
    by_cases hn : s.get_used_levels_nr + other.get_used_levels_nr ≤ s.levels_nr
    · rw [if_pos hn] at h ⊢
      cases hscan : s.joinScan s.get_used_levels_nr other.placed_containers_levels with
      | none =>
        rw [hscan] at h
      | some p =>
        obtain ⟨b, l⟩ := p
        rw [hscan] at h
        cases b with
        | false => rfl
        | true =>
          dsimp only at h ⊢
          cases hcommit : Shipment.commitList s l with
          | mk r s2 =>
            rw [hcommit] at h
            cases r with
            | none => exact Option.noConfusion h
            | some u => exact Option.noConfusion h (fun hb => Bool.noConfusion hb)
    · rw [if_neg hn] at h ⊢
  · rw [if_neg hs] at h ⊢

/-- A `False` result of the registry's `check_and_remove` leaves the
registry unchanged. -/
theorem registry_remove_false_unchanged (m : ShipmentsManager) (sh : Shipment)
    (h : (m.check_and_remove sh).1 = false) : (m.check_and_remove sh).2 = m := by
  unfold ShipmentsManager.check_and_remove at h ⊢
  by_cases hcan : m.check_and_remove_allowed sh = true
  · rw [if_pos hcan] at h
    simp at h
  · rw [if_neg hcan]

/-- `set_min`/`set_max` ignore non-member arguments. -/
theorem set_cursor_nonmember_unchanged (tm : TimestampsManager) (x : Int)
    (h : x ∉ tm.timestamps) : tm.set_min x = tm ∧ tm.set_max x = tm := by
  constructor
  · unfold TimestampsManager.set_min
    rw [if_neg h]
  · unfold TimestampsManager.set_max
    rw [if_neg h]

/-- The window's `add` ignores negative values and duplicates. -/
theorem add_rejected_unchanged (tm : TimestampsManager) (x : Int)
    (h : x < 0 ∨ x ∈ tm.timestamps) : tm.add x = tm := by
  unfold TimestampsManager.add
  rcases h with h | h
  · rw [if_neg (not_le.mpr h)]
  · by_cases h0 : 0 ≤ x
    · rw [if_pos h0, if_neg (List.ne_nil_of_mem h), if_neg (not_not_intro h)]
    · rw [if_neg h0]

/-- C6 (amended): a failing check returns a false result and leaves all
state unchanged — for shipment `check_and_add`, `check_and_remove` and
`check_and_join` and for registry `check_and_add` and `check_and_remove`
alike, and the window's `set_min`/`set_max`/`add` ignore non-member,
duplicate or negative arguments without mutating.  The claim's blanket
no-exception guarantee is false (counterexample above); the no-raise
guarantees that do hold are: shipment `check_and_add` never raises,
registry `check_and_remove` never raises (every index and removal is
behind the membership test), registry `check_and_add` does not raise when
the candidate holds at least one cargo unit, and the cursor advances do
not raise on a non-empty window whose cursors are members of the sorted
backing set.  Shipment `check_and_remove` (out-of-range level, see the
counterexample) and `check_and_join` (unguarded index arithmetic in scan
and commit) carry no blanket no-raise guarantee. -/
theorem C6_amended_failing_checks :
    (∀ (s : Shipment) (pc : PlacedContainer),
       (s.check_and_add pc).1 ≠ none ∧
       ((s.check_and_add pc).1 = some false → (s.check_and_add pc).2 = s)) ∧
    (∀ (s : Shipment) (pc : PlacedContainer),
       (s.check_and_remove pc).1 = some false → (s.check_and_remove pc).2 = s) ∧
    (∀ s other : Shipment,
       (s.check_and_join other).1 = some false → (s.check_and_join other).2 = s) ∧
    (∀ (m : ShipmentsManager) (sh : Shipment), sh.all_containers ≠ [] →
       (m.check_and_add sh).1 ≠ none ∧
       ((m.check_and_add sh).1 = some false → (m.check_and_add sh).2 = m)) ∧
    (∀ (m : ShipmentsManager) (sh : Shipment),
       (m.check_and_remove sh).1 = false → (m.check_and_remove sh).2 = m) ∧
    (∀ (tm : TimestampsManager) (x : Int), x ∉ tm.timestamps →
       tm.set_min x = tm ∧ tm.set_max x = tm) ∧
    (∀ (tm : TimestampsManager) (x : Int), x < 0 ∨ x ∈ tm.timestamps → tm.add x = tm) ∧
    (∀ tm : TimestampsManager, tm.timestamps.Sorted (· < ·) →
       tm.min ∈ tm.timestamps → tm.max ∈ tm.timestamps →
       (tm.increase_min).1 ≠ none ∧ (tm.increase_max).1 ≠ none) := by
  refine ⟨?_, ?_, join_false_unchanged, ?_, registry_remove_false_unchanged,
    set_cursor_nonmember_unchanged, add_rejected_unchanged, ?_⟩
  · intro s pc
    refine ⟨check_and_add_total s pc, ?_⟩
    unfold Shipment.check_and_add
    dsimp only
    split
    · intro h
      cases h
    · intro _
      rfl
    · split
      · intro h
        cases h
      · intro h
        cases h
  · intro s pc
    unfold Shipment.check_and_remove
    split
    · intro h
      cases h
    · split
      · split
        · intro h
          cases h
        · split
          · split
            · intro h
              cases h
            · intro h
              cases h
          · intro _
            rfl
      · intro _
        rfl
  · intro m sh hne
    have hts : ∃ b, m.check_shipment_timestamps sh = some b := by
      unfold ShipmentsManager.check_shipment_timestamps
      by_cases hemp : m.shipments.isEmpty
      · rw [if_pos hemp]
        cases hdd : sh.get_timestamps_set with
        | nil =>
          exfalso
          cases hcs : sh.all_containers with
          | nil => exact hne hcs
          | cons c t =>
            have hmem : c.timestamp ∈ sh.get_timestamps_set := by
              unfold Shipment.get_timestamps_set
              rw [List.mem_dedup, hcs]
              exact List.mem_map_of_mem _ (List.mem_cons_self c t)
            rw [hdd] at hmem
            cases hmem
        | cons a t =>
          exact ⟨_, rfl⟩
      · rw [if_neg hemp]
        exact ⟨_, rfl⟩
    obtain ⟨b, hb⟩ := hts
    constructor
    · unfold ShipmentsManager.check_and_add
      rw [hb]
      dsimp only
      split
      · simp
      · simp
    · intro h
      unfold ShipmentsManager.check_and_add at h ⊢
      rw [hb] at h ⊢
      dsimp only at h ⊢
      split
      · rename_i hcond
        rw [if_pos hcond] at h
        cases h
      · rfl
  · intro tm hs hmin hmax
    obtain ⟨last, hlast⟩ := getLast?_isSome_of_ne_nil (List.ne_nil_of_mem hmin)
    constructor
    · unfold TimestampsManager.increase_min
      rw [hlast]
      dsimp only
      by_cases hlt : tm.min < last
      · rw [if_pos hlt, if_pos hmin, get?_indexOf_succ hs hmin]
        obtain ⟨v, hv⟩ := nextAfter_isSome (mem_of_getLast? hlast) hlt
        rw [hv]
        simp
      · rw [if_neg hlt]
        simp
    · unfold TimestampsManager.increase_max
      rw [hlast]
      dsimp only
      by_cases hlt : tm.max < last
      · rw [if_pos hlt, if_pos hmax, get?_indexOf_succ hs hmax]
        obtain ⟨v, hv⟩ := nextAfter_isSome (mem_of_getLast? hlast) hlt
        rw [hv]
        simp
      · rw [if_neg hlt]
        simp

/-- C6 (witness): the amended guarantees at concrete inputs — on the
non-empty window `c7_tm` the cursor-advance operations do not raise. -/
theorem C6_amended_witness : (c7_tm.increase_min).1 ≠ none ∧ (c7_tm.increase_max).1 ≠ none :=
  C6_amended_failing_checks.2.2.2.2.2.2.2 c7_tm (by decide) (by decide) (by decide)

/-! ## Claim C9: the uniform-height invariant of the cargo source -/

/-- `send` never changes the fixed height. -/
theorem send_const_h (cs : List Container) :
    ∀ cm : ContainersManager, (cm.send cs).const_h = cm.const_h := by
  induction cs with
  | nil => intro cm; rfl
  | cons c t ih =>
    intro cm
    unfold ContainersManager.send
    rw [List.foldl_cons]
    by_cases hc : c ∈ cm.waiting_containers
    · rw [if_pos hc]
      exact ih _
    · rw [if_neg hc]
      exact ih cm

/-- Every container held after `send` was held before. -/
theorem send_mem_subset (cs : List Container) :
    ∀ (cm : ContainersManager) (c : Container),
      c ∈ (cm.send cs).waiting_containers ++ (cm.send cs).sent_containers →
      c ∈ cm.waiting_containers ++ cm.sent_containers := by
  induction cs with
  | nil => intro cm c h; exact h
  | cons c0 t ih =>
    intro cm c h
    unfold ContainersManager.send at h
    rw [List.foldl_cons] at h
    by_cases hc : c0 ∈ cm.waiting_containers
    · rw [if_pos hc] at h
      have h2 := ih _ c h
      rw [List.mem_append] at h2 ⊢
      rcases h2 with h2 | h2
      · exact Or.inl (mem_of_mem_pyRemoveFirst h2)
      · rcases List.mem_append.mp h2 with h2 | h2
        · exact Or.inr h2
        · rw [List.mem_singleton] at h2
          subst h2
          exact Or.inl hc
    · rw [if_neg hc] at h
      exact ih cm c h

/-- A single `add` call preserves the uniform-height invariant. -/
theorem heightInv_add (cm : ContainersManager) (p : Option Container) (t : Int)
    (hinv : cm.HeightInv) : ((cm.add p t).2).HeightInv := by
  unfold ContainersManager.add
  cases p with
  | none => exact hinv
  | some c =>
    dsimp only
    split
    · cases hch : cm.const_h with
      | none =>
        obtain ⟨hw, hsent⟩ := hinv.1 hch
        constructor
        · intro h2
          dsimp only at h2
          cases h2
        · intro h2 hh c' hc'
          dsimp only at hh hc'
          obtain rfl := Option.some.inj hh
          rw [hw, hsent] at hc'
          rw [List.nil_append, List.append_nil, List.mem_singleton] at hc'
          subst hc'
          rfl
      | some hgt =>
        dsimp only
        by_cases hh : c.height = hgt
        · rw [if_pos hh]
          constructor
          · intro h2
            dsimp only at h2
            cases h2
          · intro h2 hh2 c' hc'
            dsimp only at hh2 hc'
            obtain rfl := Option.some.inj hh2
            rw [List.append_assoc] at hc'
            rcases List.mem_append.mp hc' with hc' | hc'
            · exact hinv.2 hgt hch c' (List.mem_append.mpr (Or.inl hc'))
            · rcases List.mem_append.mp hc' with hc' | hc'
              · rw [List.mem_singleton] at hc'
                subst hc'
                exact hh
              · exact hinv.2 hgt hch c' (List.mem_append.mpr (Or.inr hc'))
        · rw [if_neg hh]
          exact hinv
    · exact hinv

/-- A single `send` call preserves the uniform-height invariant. -/
theorem heightInv_send (cm : ContainersManager) (cs : List Container)
    (hinv : cm.HeightInv) : (cm.send cs).HeightInv := by
  constructor
  · intro h
    rw [send_const_h] at h
    obtain ⟨hw, hsent⟩ := hinv.1 h
    constructor
    · cases hww : (cm.send cs).waiting_containers with
      | nil => rfl
      | cons a t =>
        exfalso
        have : a ∈ cm.waiting_containers ++ cm.sent_containers := by
          apply send_mem_subset cs cm a
          rw [hww]
          exact List.mem_append.mpr (Or.inl (List.mem_cons_self a t))
        rw [hw, hsent] at this
        cases this
    · cases hss : (cm.send cs).sent_containers with
      | nil => rfl
      | cons a t =>
        exfalso
        have : a ∈ cm.waiting_containers ++ cm.sent_containers := by
          apply send_mem_subset cs cm a
          rw [hss]
          exact List.mem_append.mpr (Or.inr (List.mem_cons_self a t))
        rw [hw, hsent] at this
        cases this
  · intro h hh c hc
    rw [send_const_h] at hh
    exact hinv.2 h hh c (send_mem_subset cs cm c hc)

/-- Operation sequences preserve the uniform-height invariant. -/
theorem heightInv_applyOps (ops : List CMOp) :
    ∀ cm : ContainersManager, cm.HeightInv → (cm.applyOps ops).HeightInv := by
  induction ops with
  | nil => intro cm h; exact h
  | cons op t ih =>
    intro cm h
    refine ih _ ?_
    cases op with
    | addOp p ts => exact heightInv_add cm p ts h
    | sendOp cs => exact heightInv_send cm cs h

/-- C9: the cargo source keeps a uniform container height — the first
accepted container fixes `const_h` to its height, a later `add` whose
container height differs from `const_h` returns `None` and changes
nothing, and hence after every operation sequence from a fresh manager all
held containers share the fixed height. -/
theorem C9_uniform_height :
    (∀ ops : List CMOp, (ContainersManager.init.applyOps ops).HeightInv) ∧
    (∀ (cm : ContainersManager) (c : Container) (t h : Int),
       cm.const_h = some h → c.height ≠ h → cm.add (some c) t = (none, cm)) ∧
    (∀ (cm : ContainersManager) (c : Container) (t : Int) (c' : Container)
       (cm' : ContainersManager), cm.const_h = none →
       cm.add (some c) t = (some c', cm') → cm'.const_h = some c.height) := by
  refine ⟨?_, ?_, ?_⟩
  · intro ops
    refine heightInv_applyOps ops _ ?_
    constructor
    · intro _
      exact ⟨rfl, rfl⟩
    · intro h hh
      cases hh
  · intro cm c t h hconst hne
    unfold ContainersManager.add
    rw [hconst]
    simp only [if_neg hne]
    rw [ite_self]
  · intro cm c t c' cm' hnone hadd
    unfold ContainersManager.add at hadd
    rw [hnone] at hadd
    dsimp only at hadd
    split at hadd
    · rw [Prod.mk.injEq] at hadd
      rw [← hadd.2]
    · rw [Prod.mk.injEq] at hadd
      cases hadd.1

/-- C9 (witness): the height-uniformity rejection at a concrete input —
adding a height-11 container to a manager whose fixed height is 10 returns
`None` and changes nothing. -/
theorem C9_witness : c9_cm.add (some c9_c2) 0 = (none, c9_cm) :=
  C9_uniform_height.2.1 c9_cm c9_c2 0 10 (by decide) (by decide)

/-! ## Claim C4: registry timestamp acceptance -/

/-- Folded max bounds: the fold is at most `b` exactly when the seed and
every element are. -/
theorem foldl_max_le_iff (t : List Int) :
    ∀ a b : Int, t.foldl Max.max a ≤ b ↔ a ≤ b ∧ ∀ x ∈ t, x ≤ b := by
  induction t with
  | nil =>
    intro a b
    simp
  | cons c t2 ih =>
    intro a b
    rw [List.foldl_cons, ih]
    constructor
    · rintro ⟨hmac, hall⟩
      rw [max_le_iff] at hmac
      refine ⟨hmac.1, fun x hx => ?_⟩
      rcases List.mem_cons.mp hx with rfl | hx
      · exact hmac.2
      · exact hall x hx
    · rintro ⟨ha, hall⟩
      exact ⟨max_le_iff.mpr ⟨ha, hall c (List.mem_cons_self c t2)⟩,
        fun x hx => hall x (List.mem_cons_of_mem c hx)⟩

/-- `max?` bounds the whole list. -/
theorem max?_le_iff {l : List Int} {m : Int} (h : l.max? = some m) (b : Int) :
    m ≤ b ↔ ∀ x ∈ l, x ≤ b := by
  cases l with
  | nil => cases h
  | cons a t =>
    have hdef : (a :: t).max? = some (t.foldl Max.max a) := rfl
    rw [hdef] at h
    obtain rfl := Option.some.inj h
    rw [foldl_max_le_iff]
    constructor
    · rintro ⟨ha, hall⟩ x hx
      rcases List.mem_cons.mp hx with rfl | hx
      · exact ha
      · exact hall x hx
    · intro hall
      exact ⟨hall a (List.mem_cons_self a t), fun x hx => hall x (List.mem_cons_of_mem a hx)⟩

/-- A non-empty cargo list gives the timestamp set a maximum. -/
theorem timestamps_max?_isSome {sh : Shipment} (hne : sh.all_containers ≠ []) :
    ∃ mx, sh.get_timestamps_set.max? = some mx := by
  cases hl : sh.get_timestamps_set with
  | nil =>
    exfalso
    cases hcs : sh.all_containers with
    | nil => exact hne hcs
    | cons c t =>
      have hmem : c.timestamp ∈ sh.get_timestamps_set := by
        unfold Shipment.get_timestamps_set
        rw [List.mem_dedup, hcs]
        exact List.mem_map_of_mem _ (List.mem_cons_self c t)
      rw [hl] at hmem
      cases hmem
  | cons a t => exact ⟨_, rfl⟩

/-- C4 (counterexample): a subsequent registry member whose cargo
timestamp set is exactly the singleton {40} (the anchor) is nevertheless
rejected, because it shares a cargo object with the existing member — so
"accepts exactly when the timestamp set is {T}" is false. -/
theorem C4_counterexample :
    c4_S2.get_timestamps_set = [40] ∧
    c4_mgr1.shipments.length = 1 ∧
    (c4_mgr1.check_and_add c4_S2).1 = some false :=
  ⟨by decide, by decide, by decide⟩

/-- C4 (amended): for a registry with anchor `T`: a first member with
non-empty cargo is accepted exactly when all its cargo timestamps are at
most `T`; a subsequent member is accepted exactly when its timestamp set
is the singleton {T} *and* none of its cargo objects is already held by an
existing member; and the concrete T = 40 scenario behaves as the spec
says: first member {39} accepted, next {39, 40} rejected, further {40}
accepted. -/
theorem C4_amended_registry_accept :
    (∀ (T : Int) (sh : Shipment), sh.all_containers ≠ [] →
       ((((ShipmentsManager.init T).check_and_add sh).1 = some true) ↔
         ∀ c ∈ sh.all_containers, c.timestamp ≤ T)) ∧
    (∀ (m : ShipmentsManager) (sh : Shipment), m.shipments ≠ [] →
       (((m.check_and_add sh).1 = some true) ↔
         (sh.get_timestamps_set.length = 1 ∧ m.main_timestamp ∈ sh.get_timestamps_set ∧
          ∀ c ∈ sh.get_all_containers, c ∉ m.get_containers false false))) ∧
    ((c4_mgr0.check_and_add c4_shA).1 = some true ∧
     (c4_mgrA.check_and_add c4_shB).1 = some false ∧
     (c4_mgrA.check_and_add c4_shC).1 = some true ∧
     c4_shA.get_timestamps_set = [39] ∧ c4_shB.get_timestamps_set = [39, 40] ∧
     c4_shC.get_timestamps_set = [40]) := by
  refine ⟨?_, ?_, by decide, by decide, by decide, by decide, by decide, by decide⟩
  · intro T sh hne
    obtain ⟨mx, hmx⟩ := timestamps_max?_isSome hne
    have hts : (ShipmentsManager.init T).check_shipment_timestamps sh =
        some (decide (mx ≤ T)) := by
      unfold ShipmentsManager.check_shipment_timestamps
      dsimp only
      rw [if_pos (show (ShipmentsManager.init T).shipments.isEmpty = true from rfl), hmx]
      rfl
    unfold ShipmentsManager.check_and_add
    rw [hts]
    dsimp only
    have hred : (ShipmentsManager.init T).check_redundancy sh = true := by
      unfold ShipmentsManager.check_redundancy ShipmentsManager.get_containers
      simp [ShipmentsManager.init]
    rw [hred, Bool.and_true]
    have hiff : mx ≤ T ↔ ∀ c ∈ sh.all_containers, c.timestamp ≤ T := by
      rw [max?_le_iff hmx]
      constructor
      · intro hall c hc
        refine hall c.timestamp ?_
        unfold Shipment.get_timestamps_set
        rw [List.mem_dedup]
        exact List.mem_map_of_mem _ hc
      · intro hall x hx
        unfold Shipment.get_timestamps_set at hx
        rw [List.mem_dedup, List.mem_map] at hx
        obtain ⟨c, hc, rfl⟩ := hx
        exact hall c hc
    by_cases hmle : mx ≤ T
    · rw [if_pos (decide_eq_true hmle)]
      simp only [true_iff]
      exact hiff.mp hmle
    · rw [if_neg (by simpa using hmle)]
      dsimp only
      constructor
      · intro h
        cases h
      · intro hall
        exact absurd (hiff.mpr hall) hmle
  · intro m sh hne
    have hemp : m.shipments.isEmpty = false := by
      cases hl : m.shipments with
      | nil => exact absurd hl hne
      | cons a t => rfl
    unfold ShipmentsManager.check_and_add ShipmentsManager.check_shipment_timestamps
    rw [if_neg (by rw [hemp]; exact Bool.false_ne_true)]
    dsimp only
    unfold ShipmentsManager.check_redundancy
    by_cases h1 : sh.get_timestamps_set.length = 1 ∧ m.main_timestamp ∈ sh.get_timestamps_set
    · by_cases h2 : ∀ c ∈ sh.get_all_containers, c ∉ m.get_containers false false
      · rw [if_pos (by rw [decide_eq_true h1, decide_eq_true h2]; rfl)]
        simp only [true_iff]
        exact ⟨h1.1, h1.2, h2⟩
      · rw [if_neg (by rw [decide_eq_false h2, Bool.and_false]; exact Bool.false_ne_true)]
        dsimp only
        constructor
        · intro h
          cases h
        · rintro ⟨hl1, hl2, hl3⟩
          exact absurd hl3 h2
    · rw [if_neg (by rw [decide_eq_false h1, Bool.false_and]; exact Bool.false_ne_true)]
      dsimp only
      constructor
      · intro h
        cases h
      · rintro ⟨hl1, hl2, hl3⟩
        exact absurd ⟨hl1, hl2⟩ h1

/-- C4 (witness): the amended acceptance rule at a concrete input — the
empty registry with anchor 40 accepts the {39}-timestamped first member. -/
theorem C4_amended_witness : ((ShipmentsManager.init 40).check_and_add c4_shA).1 = some true :=
  (C4_amended_registry_accept.1 40 c4_shA (by decide)).mpr (by decide)

/-! ## Claim C7: the scheduling loop -/

/-- `send` on a duplicate-free batch of waiting containers: the sent list
grows by exactly the batch, and membership in the waiting list is
unchanged for every container outside the batch. -/
theorem send_spec (cs : List Container) :
    ∀ cm : ContainersManager, (∀ c ∈ cs, c ∈ cm.waiting_containers) → cs.Nodup →
      ((cm.send cs).sent_containers = cm.sent_containers ++ cs ∧
       ∀ c, c ∉ cs → (c ∈ (cm.send cs).waiting_containers ↔ c ∈ cm.waiting_containers)) := by
  induction cs with
  | nil =>
    intro cm _ _
    exact ⟨(List.append_nil _).symm, fun c _ => Iff.rfl⟩
  | cons c0 t ih =>
    intro cm hsub hnd
    have hc0 : c0 ∈ cm.waiting_containers := hsub c0 (List.mem_cons_self c0 t)
    have hstep : cm.send (c0 :: t) =
        ContainersManager.send { cm with
          waiting_containers := pyRemoveFirst c0 cm.waiting_containers
          sent_containers := cm.sent_containers ++ [c0] } t := by
      unfold ContainersManager.send
      rw [List.foldl_cons, if_pos hc0]
    rw [hstep]
    rw [List.nodup_cons] at hnd
    have hsub2 : ∀ c ∈ t, c ∈ pyRemoveFirst c0 cm.waiting_containers := by
      intro c hct
      refine mem_pyRemoveFirst_of_ne ?_ (hsub c (List.mem_cons_of_mem c0 hct))
      intro h
      exact hnd.1 (h ▸ hct)
    obtain ⟨hsent, hwait⟩ := ih { cm with
      waiting_containers := pyRemoveFirst c0 cm.waiting_containers
      sent_containers := cm.sent_containers ++ [c0] } hsub2 hnd.2
    constructor
    · rw [hsent]
      dsimp only
      rw [List.append_assoc]
      rfl
    · intro c hc
      have hcne : c ≠ c0 := fun h => hc (h ▸ List.mem_cons_self c0 t)
      have hct : c ∉ t := fun h => hc (List.mem_cons_of_mem c0 h)
      rw [hwait c hct]
      dsimp only
      exact ⟨fun h => mem_of_mem_pyRemoveFirst h, fun h => mem_pyRemoveFirst_of_ne hcne h⟩

/-- C7: one loop-body execution with a non-empty due batch commits (marks
sent) exactly the cargo of all registry members except the last, holds the
last member uncommitted, and passes it as the previous-incomplete input to
the next iteration; when advancing the high cursor returns the sentinel,
the held member's cargo is committed and the loop terminates. -/
theorem C7_loop_commits_all_but_last (opt : Optimizer) (st : OperatorState)
    (unc : Option Shipment) (maxTs : Int) (lastSh : Shipment)
    (hne : dueContainers st maxTs ≠ [])
    (hlast : (stepRegistry opt st unc maxTs).shipments.getLast? = some lastSh)
    (hsub : ∀ c ∈ (stepRegistry opt st unc maxTs).get_containers false true,
       c ∈ st.containers_manager.waiting_containers)
    (hnd : ((stepRegistry opt st unc maxTs).get_containers false true).Nodup)
    (hdisj : ∀ c ∈ lastSh.get_all_containers,
       c ∉ (stepRegistry opt st unc maxTs).get_containers false true) :
    (∀ v tm2, (stepTM st maxTs).increase_max = (some v, tm2) → -1 < v →
       (optimizeStep opt st unc maxTs = .more
          ⟨tm2, st.ships_manager,
           st.containers_manager.send
             ((stepRegistry opt st unc maxTs).get_containers false true)⟩ lastSh v ∧
        (st.containers_manager.send
           ((stepRegistry opt st unc maxTs).get_containers false true)).sent_containers =
          st.containers_manager.sent_containers ++
            (stepRegistry opt st unc maxTs).get_containers false true ∧
        (∀ c ∈ lastSh.get_all_containers, c ∈ st.containers_manager.waiting_containers →
           c ∈ (st.containers_manager.send
             ((stepRegistry opt st unc maxTs).get_containers false true)).waiting_containers) ∧
        ∀ fuel : Nat, optimizeLoop opt (fuel + 1) st unc maxTs =
          optimizeLoop opt fuel
            ⟨tm2, st.ships_manager,
             st.containers_manager.send
               ((stepRegistry opt st unc maxTs).get_containers false true)⟩
            (some lastSh) v)) ∧
    (∀ v tm2, (stepTM st maxTs).increase_max = (some v, tm2) → v ≤ -1 →
       lastSh.get_all_containers.Nodup →
       (∀ c ∈ lastSh.get_all_containers, c ∈ st.containers_manager.waiting_containers) →
       (optimizeStep opt st unc maxTs = .finished
          ⟨tm2, st.ships_manager,
           (st.containers_manager.send
             ((stepRegistry opt st unc maxTs).get_containers false true)).send
               lastSh.get_all_containers⟩ ∧
        ((st.containers_manager.send
            ((stepRegistry opt st unc maxTs).get_containers false true)).send
              lastSh.get_all_containers).sent_containers =
          st.containers_manager.sent_containers ++
            (stepRegistry opt st unc maxTs).get_containers false true ++
              lastSh.get_all_containers ∧
        ∀ fuel : Nat, optimizeLoop opt (fuel + 1) st unc maxTs = some
          ⟨tm2, st.ships_manager,
           (st.containers_manager.send
             ((stepRegistry opt st unc maxTs).get_containers false true)).send
               lastSh.get_all_containers⟩)) := by
  have hemp : (dueContainers st maxTs).isEmpty = false := by
    cases hl : dueContainers st maxTs with
    | nil => exact absurd hl hne
    | cons a t => rfl
  obtain ⟨hsent1, hwait1⟩ :=
    send_spec ((stepRegistry opt st unc maxTs).get_containers false true)
      st.containers_manager hsub hnd
  constructor
  · intro v tm2 hincr hv
    have hstepeq : optimizeStep opt st unc maxTs = .more
        ⟨tm2, st.ships_manager,
         st.containers_manager.send
           ((stepRegistry opt st unc maxTs).get_containers false true)⟩ lastSh v := by
      unfold optimizeStep
      rw [if_neg (by rw [hemp]; exact Bool.false_ne_true)]
      dsimp only
      rw [hlast]
      dsimp only
      rw [hincr]
      dsimp only
      rw [if_pos hv]
    refine ⟨hstepeq, hsent1, ?_, ?_⟩
    · intro c hc hcw
      exact (hwait1 c (hdisj c hc)).mpr hcw
    · intro fuel
      conv_lhs => unfold optimizeLoop
      rw [hstepeq]
  · intro v tm2 hincr hv hnd2 hsub2
    have hsub3 : ∀ c ∈ lastSh.get_all_containers,
        c ∈ (st.containers_manager.send
          ((stepRegistry opt st unc maxTs).get_containers false true)).waiting_containers := by
      intro c hc
      exact (hwait1 c (hdisj c hc)).mpr (hsub2 c hc)
    obtain ⟨hsent2, hwait2⟩ :=
      send_spec lastSh.get_all_containers
        (st.containers_manager.send
          ((stepRegistry opt st unc maxTs).get_containers false true)) hsub3 hnd2
    have hstepeq : optimizeStep opt st unc maxTs = .finished
        ⟨tm2, st.ships_manager,
         (st.containers_manager.send
           ((stepRegistry opt st unc maxTs).get_containers false true)).send
             lastSh.get_all_containers⟩ := by
      unfold optimizeStep
      rw [if_neg (by rw [hemp]; exact Bool.false_ne_true)]
      dsimp only
      rw [hlast]
      dsimp only
      rw [hincr]
      dsimp only
      rw [if_neg (not_lt.mpr hv)]
    refine ⟨hstepeq, ?_, ?_⟩
    · rw [hsent2, hsent1]
    · intro fuel
      conv_lhs => unfold optimizeLoop
      rw [hstepeq]

/-- C7 (witness): the loop behaviour at a concrete input — the high cursor
of `c7_st` already sits at the largest member, so the single executed
batch commits the first member's cargo, then the sentinel branch flushes
the held second member and terminates with both containers sent. -/
theorem C7_witness :
    optimizeStep c7_opt c7_st none 5 = .finished
      ⟨stepTM c7_st 5, c7_st.ships_manager,
       (c7_st.containers_manager.send
         ((stepRegistry c7_opt c7_st none 5).get_containers false true)).send
           c7_sh2.get_all_containers⟩ ∧
    ((c7_st.containers_manager.send
        ((stepRegistry c7_opt c7_st none 5).get_containers false true)).send
          c7_sh2.get_all_containers).sent_containers =
      c7_st.containers_manager.sent_containers ++
        (stepRegistry c7_opt c7_st none 5).get_containers false true ++
          c7_sh2.get_all_containers := by
  have h := (C7_loop_commits_all_but_last c7_opt c7_st none 5 c7_sh2 (by decide) rfl
    (by decide) (by decide) (by decide)).2 (-1) (stepTM c7_st 5) (by decide) (by decide)
    (by decide) (by decide)
  exact ⟨h.1, h.2.1⟩
